import Mathlib

/-!
Verification of the seat-booking core (`seat_booking.py`, class
`SeatBookingSystem`) of the FC723 repository.

Modelling conventions (shallow embedding):

* Python strings are modelled as `List Char` (`PyStr`), restricted to the
  ASCII fragment actually used by the program: `str.strip`, `str.upper`,
  `str.isalpha`, `str.isdigit` and `int(...)` are given their ASCII
  semantics.
* A Python `dict` is modelled as an insertion-ordered association list
  (`List (PyStr × PyStr)`); assignment to an existing key replaces the
  value in place, assignment to a fresh key appends, `dict.values()` is
  the list of second components in insertion order — exactly CPython's
  observable dictionary behaviour.
* The sqlite connection is modelled by two record lists: `durable`, the
  contents of the on-disk `booking` table, and `view`, the table as seen
  through the connection's open transaction.  `execute` mutates `view`,
  `commit` publishes `view` into `durable`.  A failure of an `execute`
  or `commit` call (an `sqlite3` exception) is injected through Boolean
  parameters; the raised exception propagates out of the operation,
  leaving whatever partial mutations the operation had already made.
* `secrets.choice` is modelled by an entropy stream `Nat → Fin 36`;
  candidate `k` of a `_new_ref` call uses draws `8*k, …, 8*k+7`.  The
  unbounded `while True` retry loop is given explicit fuel; running out
  of fuel models non-termination of the loop (error `noFuel`) and makes
  no mutation, exactly like the non-returning Python loop.
-/

set_option maxRecDepth 10000

deriving instance DecidableEq for Except

namespace SeatBooking

/-! ## Python string primitives (ASCII fragment) -/

abbrev PyStr := List Char

/-- Coerce a Lean string literal to the `PyStr` model. -/
def pys (s : String) : PyStr := s.toList

/-- ASCII whitespace stripped by `str.strip()`. -/
def isPySpace (c : Char) : Bool :=
  c = ' ' || c = '\t' || c = '\n' || c = '\x0d' || c = '\x0b' || c = '\x0c'

/-- `str.strip()`: drop whitespace from both ends. -/
def pyStrip (s : PyStr) : PyStr :=
  ((s.dropWhile isPySpace).reverse.dropWhile isPySpace).reverse

/-- `str.upper()` on the ASCII range. -/
def pyUpper (s : PyStr) : PyStr :=
  s.map fun c => if 'a' ≤ c && c ≤ 'z' then Char.ofNat (c.toNat - 32) else c

/-- `str.isalpha()` for a single character (ASCII). -/
def pyIsAlphaChar (c : Char) : Bool :=
  ('A' ≤ c && c ≤ 'Z') || ('a' ≤ c && c ≤ 'z')

/-- ASCII decimal digit test. -/
def pyIsDigitChar (c : Char) : Bool :=
  '0' ≤ c && c ≤ '9'

/-- `str.isdigit()`: non-empty and all digits. -/
def pyIsDigitStr (s : PyStr) : Bool :=
  !s.isEmpty && s.all pyIsDigitChar

/-- `int(...)` on a string of ASCII digits. -/
def pyParseNat (s : PyStr) : Nat :=
  s.foldl (fun n c => 10 * n + (c.toNat - 48)) 0

/-- `f"{r}"` for a natural number: its decimal digit string. -/
def natStr (r : Nat) : PyStr := Nat.toDigits 10 r

/-! ## Python dict model -/

/-- `self.seats`: a Python dict from seat code to status string. -/
abbrev SeatMap := List (PyStr × PyStr)

/-- `d[k]` as an `Option` (`none` models a `KeyError`). -/
def dictGet : SeatMap → PyStr → Option PyStr
  | [], _ => none
  | p :: m, k => if p.1 = k then some p.2 else dictGet m k

/-- `d[k] = v`: replace in place when the key exists, append otherwise
(keys of a Python dict are unique, so replacing the first occurrence is
exactly CPython's behaviour). -/
def dictSet : SeatMap → PyStr → PyStr → SeatMap
  | [], k, v => [(k, v)]
  | p :: m, k, v => if p.1 = k then (k, v) :: m else p :: dictSet m k v

/-- `d.values()` in insertion order. -/
def dictValues (m : SeatMap) : List PyStr := m.map (·.2)

/-! ## Aircraft layout constants (`seat_booking.py` lines 6-12) -/

/-- `LETTERS = "ABCDEF"`. -/
def LETTERS : PyStr := pys "ABCDEF"

/-- `ROWS = range(1, 81)`. -/
def rowsList : List Nat := List.range' 1 80

/-- `STORAGE_ROWS = {77, 78}`. -/
def STORAGE_ROWS : List Nat := [77, 78]

/-- `STORAGE_COLS = {"D", "E", "F"}`. -/
def STORAGE_COLS : PyStr := pys "DEF"

/-- The seat code `f"{r}{c}"`. -/
def mkCode (r : Nat) (c : Char) : PyStr := natStr r ++ [c]

def freeVal : PyStr := pys "F"
def storVal : PyStr := pys "S"

/-- All 480 seat codes in the order `_init_seats` creates them. -/
def allSeats : List PyStr :=
  rowsList.flatMap fun r => LETTERS.map fun c => mkCode r c

/-- `r in STORAGE_ROWS and c in STORAGE_COLS`. -/
def isStorage (r : Nat) (c : Char) : Bool :=
  r ∈ STORAGE_ROWS && c ∈ STORAGE_COLS

/-- `_init_seats` (lines 27-31): every seat `F`, storage seats `S`. -/
def init_seats : SeatMap :=
  rowsList.foldl
    (fun m r =>
      LETTERS.foldl
        (fun m c => dictSet m (mkCode r c) (if isStorage r c then storVal else freeVal))
        m)
    []

/-! ## Errors raised by the class -/

inductive PyErr where
  /-- A `ValueError` with the given message. -/
  | valueError (msg : PyStr)
  /-- A `KeyError` from a dict subscript on a missing key. -/
  | keyError
  /-- An injected `sqlite3` failure from `execute` or `commit`. -/
  | dbError
  /-- The `_new_ref` retry loop ran out of fuel (models non-termination). -/
  | noFuel
deriving DecidableEq, Repr

def msgBadCode : PyStr := pys "Please input a correct seat code, e.g. 1A or 3F"
def msgRange : PyStr := pys "Sorry! Seat code is outside valid range (1-80, A-F)"
def msgStorage (full : PyStr) : PyStr :=
  pys "Sorry! " ++ full ++ pys " is storage area and cannot be booked"
def msgGroupSize : PyStr := pys "Adjacent booking only supports 2 or 3 passengers."

/-! ## `normalise_seat` (lines 149-160) -/

/-- Lines 154-160 of `normalise_seat`: range check on the parsed
`row, letter`, then the storage check `self.seats[full] == "S"`. -/
def normalise_range (seats : SeatMap) (row : Nat) (letter : Char) : Except PyErr PyStr :=
  if !(decide (1 ≤ row) && decide (row ≤ 80)) || !(LETTERS.contains letter) then
    .error (.valueError msgRange)
  else
    match dictGet seats (mkCode row letter) with
    | none => .error .keyError
    | some v =>
      if v = storVal then .error (.valueError (msgStorage (mkCode row letter)))
      else .ok (mkCode row letter)

/-- Line 152 of `normalise_seat`: the format check
`not code or not code[-1].isalpha() or not code[:-1].isdigit()` on the
already stripped-and-uppercased string, then the rest. -/
def normalise_core (seats : SeatMap) (code : PyStr) : Except PyErr PyStr :=
  if code.isEmpty || !pyIsAlphaChar (code.getLastD ' ') || !pyIsDigitStr code.dropLast then
    .error (.valueError msgBadCode)
  else
    normalise_range seats (pyParseNat code.dropLast) (code.getLastD ' ')

/-- `normalise_seat`: strip + upper, format check, range check, storage
check.  Reads the seat map only for the storage check; mutates nothing. -/
def normalise_seat (seats : SeatMap) (code0 : PyStr) : Except PyErr PyStr :=
  normalise_core seats (pyUpper (pyStrip code0))

/-! ## Durable store model -/

/-- One row of the `booking` table (schema of `_create_booking_table`). -/
structure DBRecord where
  ref : PyStr
  passport : PyStr
  first_name : PyStr
  last_name : PyStr
  row : Nat
  col : PyStr
deriving DecidableEq, Repr

/-- The seat code `f"{row}{col}"` a stored record points at.  `col` is a
TEXT column, so it may be any string in a hand-made store. -/
def recCode (r : DBRecord) : PyStr := natStr r.row ++ r.col

/-- Whole-system state: the seat dict plus the sqlite connection.
`durable` is the on-disk table, `view` the table as the connection's
open transaction sees it (`execute` changes `view`, `commit` copies
`view` to `durable`). -/
structure Sys where
  seats : SeatMap
  durable : List DBRecord
  view : List DBRecord
deriving DecidableEq

/-! ## `_load_existing_bookings` (lines 120-129) and construction -/

/-- `_load_existing_bookings`: overlay each stored record onto the seat
map, but only when the seat is currently `"F"` (uses `dict.get`, so
unknown coordinates are silently skipped and never add keys). -/
def load_existing_bookings (seats : SeatMap) (recs : List DBRecord) : SeatMap :=
  recs.foldl
    (fun m r => if dictGet m (recCode r) = some freeVal then dictSet m (recCode r) r.ref else m)
    seats

/-- `SeatBookingSystem.__init__` against a store already holding `store`:
`_init_seats`, then hydration.  (`_open_or_create_db` / `_assure_schema`
concern the file system and schema DDL; the store is modelled
structurally, already in canonical shape.) -/
def mkSys (store : List DBRecord) : Sys :=
  { seats := load_existing_bookings init_seats store
    durable := store
    view := store }

/-! ## `_new_ref` (lines 132-146) -/

/-- `string.ascii_uppercase + string.digits`. -/
def alphabet : PyStr := pys "ABCDEFGHIJKLMNOPQRSTUVWXYZ0123456789"

/-- Candidate `k`: 8 draws `secrets.choice(alphabet)` from the entropy
stream (draws `8*k … 8*k+7`). -/
def mkCandidate (entropy : Nat → Fin 36) (k : Nat) : PyStr :=
  (List.range 8).map fun i => alphabet.getD (entropy (8 * k + i)).val 'A'

/-- `_new_ref`: retry until the candidate appears neither among the seat
map's values nor as a `ref` in the booking table (the table as the
connection sees it).  Returns the reference and the next unused
candidate index; `none` when the fuel runs out (the Python loop would
still be running). -/
def new_ref (seats : SeatMap) (view : List DBRecord) (entropy : Nat → Fin 36) :
    Nat → Nat → Option (PyStr × Nat)
  | 0, _ => none
  | fuel + 1, k =>
    let ref := mkCandidate entropy k
    if ref ∈ dictValues seats then new_ref seats view entropy fuel (k + 1)
    else if view.any fun r => r.ref == ref then new_ref seats view entropy fuel (k + 1)
    else some (ref, k + 1)

/-! ## Single-seat operations (lines 163-199) -/

/-- `seat_status`: `self.seats[self.normalise_seat(code)]`. -/
def seat_status (st : Sys) (raw : PyStr) : Except PyErr PyStr :=
  match normalise_seat st.seats raw with
  | .error e => .error e
  | .ok code =>
    match dictGet st.seats code with
    | none => .error .keyError
    | some v => .ok v

/-- `book_seat` (lines 166-186).  `failIns` / `failCommit` inject an
`sqlite3` failure into the `INSERT` / `commit` call; the exception
propagates, keeping every mutation already made (the in-memory seat was
already set to `ref` on line 178). -/
def book_seat (st : Sys) (raw passport first last : PyStr) (entropy : Nat → Fin 36)
    (fuel : Nat) (failIns failCommit : Bool) : Except PyErr (Option PyStr) × Sys :=
  match normalise_seat st.seats raw with
  | .error e => (.error e, st)
  | .ok code =>
    match dictGet st.seats code with
    | none => (.error .keyError, st)
    | some v =>
      if v ≠ freeVal then (.ok none, st)
      else
        match new_ref st.seats st.view entropy fuel 0 with
        | none => (.error .noFuel, st)
        | some (ref, _) =>
          let st1 : Sys := { st with seats := dictSet st.seats code ref }
          if failIns then (.error .dbError, st1)
          else
            let row := pyParseNat code.dropLast
            let col : PyStr := [code.getLastD ' ']
            let st2 : Sys :=
              { st1 with view := st1.view ++ [⟨ref, passport, first, last, row, col⟩] }
            if failCommit then (.error .dbError, st2)
            else
              let st3 : Sys := { st2 with durable := st2.view }
              (.ok (some ref), { st3 with seats := dictSet st3.seats code ref })

/-- `free_seat` (lines 188-199). -/
def free_seat (st : Sys) (raw : PyStr) (failDel failCommit : Bool) :
    Except PyErr Bool × Sys :=
  match normalise_seat st.seats raw with
  | .error e => (.error e, st)
  | .ok code =>
    match dictGet st.seats code with
    | none => (.error .keyError, st)
    | some current =>
      if current = freeVal then (.ok false, st)
      else
        if failDel then (.error .dbError, st)
        else
          let row := pyParseNat code.dropLast
          let col : PyStr := [code.getLastD ' ']
          let st1 : Sys :=
            { st with view := st.view.filter fun r => !(r.row = row && r.col = col) }
          if failCommit then (.error .dbError, st1)
          else
            let st2 : Sys := { st1 with durable := st1.view }
            (.ok true, { st2 with seats := dictSet st2.seats code freeVal })

/-! ## Adjacent-seat operations (lines 202-237) -/

/-- The two aisle-separated sides scanned by `find_adjacent`. -/
def sides : List PyStr := [pys "ABC", pys "DEF"]

/-- `find_adjacent` (lines 202-212): rows ascending, side `"ABC"` before
`"DEF"`, windows `side[i:i+n]` from the side's start, first all-free
window wins. -/
def find_adjacent (seats : SeatMap) (n : Nat) : Except PyErr (Option (List PyStr)) :=
  if n ≠ 2 ∧ n ≠ 3 then .error (.valueError msgGroupSize)
  else
    .ok <| rowsList.findSome? fun row =>
      sides.findSome? fun side =>
        (List.range (side.length - n + 1)).findSome? fun i =>
          let block := ((side.drop i).take n).map fun ltr => mkCode row ltr
          if block.all fun s => dictGet seats s == some freeVal then some block else none

/-- One passenger tuple `(passport, first, last)`. -/
abbrev Passenger := PyStr × PyStr × PyStr

/-- The `for … in zip(passengers, block)` loop of `book_adjacent`
(lines 227-235): for each pair draw a reference, `INSERT` (may fail:
head of `sched`), set the seat, collect `(seat, ref)`.  Returns the
failure schedule left for the final `commit`. -/
def bookAdjLoop (st : Sys) (entropy : Nat → Fin 36) (fuel : Nat) :
    List Passenger → List PyStr → Nat → List Bool → List (PyStr × PyStr) →
    Except PyErr (List (PyStr × PyStr)) × Sys × List Bool
  | p :: ps, seat :: bs, k, sched, acc =>
    match new_ref st.seats st.view entropy fuel k with
    | none => (.error .noFuel, st, sched)
    | some (ref, k1) =>
      if sched.headD false then (.error .dbError, st, sched.tail)
      else
        let row := pyParseNat seat.dropLast
        let col : PyStr := [seat.getLastD ' ']
        let st1 : Sys :=
          { st with view := st.view ++ [⟨ref, p.1, p.2.1, p.2.2, row, col⟩] }
        let st2 : Sys := { st1 with seats := dictSet st1.seats seat ref }
        bookAdjLoop st2 entropy fuel ps bs k1 sched.tail (acc ++ [(seat, ref)])
  | _, _, _, sched, acc => (.ok acc, st, sched)

/-- `book_adjacent` (lines 214-237): size check, `find_adjacent`, the
reserve-and-insert loop, then a single `commit` (head of the remaining
schedule decides whether the commit fails). -/
def book_adjacent (st : Sys) (passengers : List Passenger) (entropy : Nat → Fin 36)
    (fuel : Nat) (sched : List Bool) :
    Except PyErr (Option (List (PyStr × PyStr))) × Sys :=
  let n := passengers.length
  if n ≠ 2 ∧ n ≠ 3 then (.error (.valueError msgGroupSize), st)
  else
    match find_adjacent st.seats n with
    | .error e => (.error e, st)
    | .ok none => (.ok none, st)
    | .ok (some block) =>
      match bookAdjLoop st entropy fuel passengers block 0 sched [] with
      | (.error e, st1, _) => (.error e, st1)
      | (.ok acc, st1, schedLeft) =>
        if schedLeft.headD false then (.error .dbError, st1)
        else (.ok (some acc), { st1 with durable := st1.view })

/-! ## `summary` (lines 241-245) -/

structure Summary where
  free : Nat
  reserved : Nat
  storage : Nat
deriving DecidableEq, Repr

/-- `summary`: classify every value of the seat dict as `F`, `S` or
booked, and report the three counts. -/
def summary (m : SeatMap) : Summary :=
  let cnt :=
    (dictValues m).foldl
      (fun (c : Nat × Nat × Nat) v =>
        if v = freeVal then (c.1 + 1, c.2.1, c.2.2)
        else if v = storVal then (c.1, c.2.1 + 1, c.2.2)
        else (c.1, c.2.1, c.2.2 + 1))
      (0, 0, 0)
  { free := cnt.1, reserved := cnt.2.2, storage := cnt.2.1 }

/-! ## Public operations as a transition system -/

/-- One public call, with its injected randomness and failure pattern.
`status` and `report` never mutate; they are included so that "any
finite sequence of public operations" means exactly that. -/
inductive Op where
  | status (raw : PyStr)
  | book (raw passport first last : PyStr) (entropy : Nat → Fin 36) (fuel : Nat)
      (failIns failCommit : Bool)
  | free (raw : PyStr) (failDel failCommit : Bool)
  | group (passengers : List Passenger) (entropy : Nat → Fin 36) (fuel : Nat)
      (sched : List Bool)
  | report

/-- The state after one public call (also after one that raised). -/
def applyOp (st : Sys) : Op → Sys
  | .status _ => st
  | .book raw p f l entropy fuel f1 f2 => (book_seat st raw p f l entropy fuel f1 f2).2
  | .free raw f1 f2 => (free_seat st raw f1 f2).2
  | .group ps entropy fuel sched => (book_adjacent st ps entropy fuel sched).2
  | .report => st

/-- The state after a finite sequence of public calls. -/
def runOps (st : Sys) (ops : List Op) : Sys := ops.foldl applyOp st

/-! ## Spec-side definitions (used only to state the claims) -/

/-- A well-formed booking reference: exactly 8 characters, all from the
A-Z / 0-9 alphabet. -/
def wellRef (v : PyStr) : Prop := v.length = 8 ∧ ∀ c ∈ v, c ∈ alphabet

instance (v : PyStr) : Decidable (wellRef v) := by unfold wellRef; infer_instance

/-- The storage predicate on a canonical seat code. -/
def isStorageCode (code : PyStr) : Bool :=
  STORAGE_ROWS.any fun r => STORAGE_COLS.any fun c => code == mkCode r c

/-- Modelled from the spec (AdjacencyFinder, §4.6): the candidate blocks
in the spec's scan order — rows ascending, group `{A,B,C}` before
`{D,E,F}`, windows of size `n` sliding from the group's start. -/
def specWindows (n : Nat) : List (List PyStr) :=
  rowsList.flatMap fun row =>
    sides.flatMap fun side =>
      (List.range (side.length - n + 1)).map fun i =>
        ((side.drop i).take n).map fun ltr => mkCode row ltr

/-- Modelled from the spec (§4.6): return the first candidate window all
of whose seats are `Free`. -/
def findBlock_spec (seats : SeatMap) (n : Nat) : Option (List PyStr) :=
  (specWindows n).find? fun block => block.all fun s => dictGet seats s == some freeVal

/-- The closed form of `_init_seats`' output: one entry per seat code in
row-major order. -/
def initTable : SeatMap :=
  rowsList.flatMap fun r =>
    LETTERS.map fun c => (mkCode r c, if isStorage r c then storVal else freeVal)

/-- Structural well-formedness of the seat dict: its keys are exactly the
480 layout codes (in layout order) and every storage seat holds `"S"`. -/
def SeatsOK (m : SeatMap) : Prop :=
  m.map (·.1) = allSeats ∧ ∀ p ∈ m, isStorageCode p.1 = true → p.2 = storVal

/-- Value well-formedness of the seat dict: every status is `"F"`, `"S"`
or a well-formed 8-character reference. -/
def ValsOK (m : SeatMap) : Prop :=
  ∀ p ∈ m, p.2 = freeVal ∨ p.2 = storVal ∨ wellRef p.2

/-- A constant entropy stream: every draw picks alphabet index 0 (`A`). -/
def entropyA : Nat → Fin 36 := fun _ => ⟨0, by decide⟩

/-- An entropy stream whose candidate 0 is `AAAAAAAA` and whose further
candidates are `BBBBBBBB`. -/
def entropyAB : Nat → Fin 36 := fun n => if n < 8 then ⟨0, by decide⟩ else ⟨1, by decide⟩

/-- An entropy stream whose candidate `k` is the 8-fold repetition of the
`k`-th alphabet character: `AAAAAAAA`, `BBBBBBBB`, `CCCCCCCC`, … -/
def entropySeq : Nat → Fin 36 := fun n => ⟨(n / 8) % 36, Nat.mod_lt _ (by omega)⟩

/-- Three successful single-seat bookings of 1A, 1B, 1C (no injected
failures), used to exercise the group-search scan order. -/
def C5ops : List Op :=
  [.book (pys "1A") (pys "P1") (pys "Ann") (pys "Lee") entropySeq 3 false false,
   .book (pys "1B") (pys "P2") (pys "Bob") (pys "Kim") entropySeq 3 false false,
   .book (pys "1C") (pys "P3") (pys "Cho") (pys "Day") entropySeq 3 false false]

/-! # Theorems

## Dictionary lemmas -/

theorem dictGet_nil (k : PyStr) : dictGet [] k = none := rfl

theorem dictGet_cons (p : PyStr × PyStr) (m : SeatMap) (k : PyStr) :
    dictGet (p :: m) k = if p.1 = k then some p.2 else dictGet m k := rfl

theorem dictGet_dictSet_self (m : SeatMap) (k v : PyStr) :
    dictGet (dictSet m k v) k = some v := by
  induction m with
  | nil => simp [dictGet, dictSet]
  | cons p m ih =>
    by_cases hp : p.1 = k <;> simp [dictGet, dictSet, hp, ih]

theorem dictGet_dictSet_ne (m : SeatMap) (k v k' : PyStr) (h : k' ≠ k) :
    dictGet (dictSet m k v) k' = dictGet m k' := by
  have hk : ¬(k = k') := fun hh => h hh.symm
  induction m with
  | nil => simp [dictGet, dictSet, hk]
  | cons p m ih =>
    by_cases hp : p.1 = k
    · have hp' : ¬(p.1 = k') := hp ▸ hk
      simp [dictSet, hp, dictGet_cons, hk, hp']
    · simp only [dictSet, hp, if_false, dictGet_cons, ih]

theorem dictSet_fresh (m : SeatMap) (k v : PyStr) (h : k ∉ m.map (·.1)) :
    dictSet m k v = m ++ [(k, v)] := by
  induction m with
  | nil => rfl
  | cons p m ih =>
    simp only [List.map_cons, List.mem_cons, not_or] at h
    have hp : ¬(p.1 = k) := fun hh => h.1 hh.symm
    simp [dictSet, hp, ih h.2]

theorem keys_dictSet_of_mem (m : SeatMap) (k v : PyStr) (h : k ∈ m.map (·.1)) :
    (dictSet m k v).map (·.1) = m.map (·.1) := by
  induction m with
  | nil => simp at h
  | cons p m ih =>
    by_cases hp : p.1 = k
    · simp [dictSet, hp]
    · simp only [List.map_cons, List.mem_cons] at h
      rcases h with h | h
      · exact absurd h.symm hp
      · simp [dictSet, hp, ih h]

theorem mem_dictSet (m : SeatMap) (k v : PyStr) (p : PyStr × PyStr)
    (hp : p ∈ dictSet m k v) : p = (k, v) ∨ p ∈ m := by
  induction m with
  | nil => simpa [dictSet] using hp
  | cons q m ih =>
    by_cases hq : q.1 = k
    · simp only [dictSet, hq, if_true, List.mem_cons] at hp
      rcases hp with hp | hp
      · exact .inl hp
      · exact .inr (List.mem_cons_of_mem q hp)
    · simp only [dictSet, hq, if_false, List.mem_cons] at hp
      rcases hp with hp | hp
      · exact .inr (hp ▸ List.mem_cons_self q m)
      · rcases ih hp with h | h
        · exact .inl h
        · exact .inr (List.mem_cons_of_mem q h)

theorem dictGet_mem (m : SeatMap) (k v : PyStr) (h : dictGet m k = some v) :
    (k, v) ∈ m := by
  induction m with
  | nil => simp [dictGet] at h
  | cons p m ih =>
    rw [dictGet_cons] at h
    by_cases hp : p.1 = k
    · simp only [hp, if_true, Option.some_inj] at h
      have hpe : p = (k, v) := by cases p; simp_all
      exact hpe ▸ List.mem_cons_self p m
    · simp only [hp, if_false] at h
      exact List.mem_cons_of_mem p (ih h)

theorem dictGet_eq_none_iff (m : SeatMap) (k : PyStr) :
    dictGet m k = none ↔ k ∉ m.map (·.1) := by
  induction m with
  | nil => simp [dictGet]
  | cons p m ih =>
    rw [dictGet_cons]
    by_cases hp : p.1 = k
    · simp [hp]
    · have hp' : ¬(k = p.1) := fun hh => hp hh.symm
      simp [hp, ih, hp']

theorem dictGet_eq_some_of_mem (m : SeatMap) (k v : PyStr)
    (hnd : (m.map (·.1)).Nodup) (hm : (k, v) ∈ m) : dictGet m k = some v := by
  induction m with
  | nil => simp at hm
  | cons p m ih =>
    simp only [List.map_cons, List.nodup_cons] at hnd
    rw [dictGet_cons]
    rcases List.mem_cons.mp hm with hm | hm
    · simp [← hm]
    · have hpk : p.1 ≠ k := by
        intro hk
        exact hnd.1 (hk ▸ List.mem_map_of_mem (·.1) hm)
      simp only [hpk, if_false]
      exact ih hnd.2 hm

theorem length_dictSet_of_mem (m : SeatMap) (k v : PyStr) (h : k ∈ m.map (·.1)) :
    (dictSet m k v).length = m.length := by
  have h1 := keys_dictSet_of_mem m k v h
  have h2 : ((dictSet m k v).map (·.1)).length = (m.map (·.1)).length := by rw [h1]
  simpa using h2

/-! ## The layout: distinct seat codes, closed form of `_init_seats` -/

theorem LETTERS_nodup : LETTERS.Nodup := by decide

theorem rows_natStr_nodup : (rowsList.map natStr).Nodup := by decide

theorem mkCode_inj {r r' : Nat} {c c' : Char} (h : mkCode r c = mkCode r' c') :
    natStr r = natStr r' ∧ c = c' := by
  have h' : (natStr r).concat c = (natStr r').concat c' := by
    simpa [List.concat_eq_append, mkCode] using h
  exact List.concat_inj.mp h'

theorem natStr_inj_rows {r r' : Nat} (hr : r ∈ rowsList) (hr' : r' ∈ rowsList)
    (h : natStr r = natStr r') : r = r' :=
  List.inj_on_of_nodup_map rows_natStr_nodup hr hr' h

theorem mem_allSeats_iff (k : PyStr) :
    k ∈ allSeats ↔ ∃ r ∈ rowsList, ∃ c ∈ LETTERS, k = mkCode r c := by
  simp only [allSeats, List.mem_flatMap, List.mem_map]
  constructor
  · rintro ⟨r, hr, c, hc, rfl⟩
    exact ⟨r, hr, c, hc, rfl⟩
  · rintro ⟨r, hr, c, hc, rfl⟩
    exact ⟨r, hr, c, hc, rfl⟩

theorem mkCode_mem_allSeats {r : Nat} {c : Char} (hr : r ∈ rowsList) (hc : c ∈ LETTERS) :
    mkCode r c ∈ allSeats :=
  (mem_allSeats_iff _).mpr ⟨r, hr, c, hc, rfl⟩

theorem allSeats_nodup : allSeats.Nodup := by
  rw [allSeats, List.nodup_flatMap]
  constructor
  · intro r _
    refine List.Nodup.map ?_ LETTERS_nodup
    intro c c' h
    exact (mkCode_inj h).2
  · have hrows : rowsList.Nodup := by decide
    refine hrows.pairwise_of_forall_ne ?_
    intro r hr r' hr' hne
    simp only [Function.onFun, List.disjoint_left]
    rintro x hx hx'
    simp only [List.mem_map] at hx hx'
    obtain ⟨c, _, rfl⟩ := hx
    obtain ⟨c', _, hcc⟩ := hx'
    exact hne (natStr_inj_rows hr hr' (mkCode_inj hcc.symm).1)

theorem foldl_dictSet_entries (L : List (PyStr × PyStr)) :
    ∀ m : SeatMap, (∀ k ∈ L.map (·.1), k ∉ m.map (·.1)) → (L.map (·.1)).Nodup →
      L.foldl (fun acc p => dictSet acc p.1 p.2) m = m ++ L := by
  induction L with
  | nil => intro m _ _; simp
  | cons p L ih =>
    intro m hfresh hnd
    simp only [List.map_cons, List.nodup_cons] at hnd
    have hp : p.1 ∉ m.map (·.1) := hfresh p.1 (by simp)
    have hstep : dictSet m p.1 p.2 = m ++ [p] := by
      rw [dictSet_fresh m p.1 p.2 hp]
    rw [List.foldl_cons, hstep, ih (m ++ [p]) ?_ hnd.2, List.append_assoc,
      List.singleton_append]
    intro k hk
    simp only [List.map_append, List.mem_append, not_or]
    refine ⟨hfresh k (List.mem_cons_of_mem _ hk), ?_⟩
    simp only [List.map_cons, List.map_nil, List.mem_singleton]
    intro hkp
    exact hnd.1 (hkp ▸ hk)

theorem keys_initTable : initTable.map (·.1) = allSeats := by
  simp only [initTable, allSeats, List.map_flatMap, List.map_map]
  rfl

theorem init_seats_eq : init_seats = initTable := by
  have hgen : ∀ (rows : List Nat) (m0 : SeatMap),
      rows.foldl
        (fun m r =>
          LETTERS.foldl
            (fun m c => dictSet m (mkCode r c) (if isStorage r c then storVal else freeVal))
            m)
        m0 =
      (rows.flatMap fun r =>
          LETTERS.map fun c => (mkCode r c, if isStorage r c then storVal else freeVal)).foldl
        (fun acc p => dictSet acc p.1 p.2) m0 := by
    intro rows
    induction rows with
    | nil => intro m0; rfl
    | cons r rows ih =>
      intro m0
      rw [List.foldl_cons, ih, List.flatMap_cons, List.foldl_append, List.foldl_map]
  have h3 : init_seats = initTable.foldl (fun acc p => dictSet acc p.1 p.2) [] :=
    hgen rowsList []
  have h4 := foldl_dictSet_entries initTable [] (by intro k _; simp)
    (by rw [keys_initTable]; exact allSeats_nodup)
  rw [h3, h4, List.nil_append]

theorem keys_init_seats : init_seats.map (·.1) = allSeats := by
  rw [init_seats_eq, keys_initTable]

theorem dictGet_init_seats {r : Nat} {c : Char} (hr : r ∈ rowsList) (hc : c ∈ LETTERS) :
    dictGet init_seats (mkCode r c) =
      some (if isStorage r c then storVal else freeVal) := by
  rw [init_seats_eq]
  refine dictGet_eq_some_of_mem _ _ _ (keys_initTable ▸ allSeats_nodup) ?_
  simp only [initTable, List.mem_flatMap, List.mem_map]
  exact ⟨r, hr, c, hc, rfl⟩

theorem dictGet_init_seats_none {k : PyStr} (h : k ∉ allSeats) :
    dictGet init_seats k = none := by
  rw [dictGet_eq_none_iff, keys_init_seats]
  exact h

theorem allSeats_length : allSeats.length = 480 := by
  have h : ∀ rows : List Nat, (rows.flatMap fun r => LETTERS.map fun c => mkCode r c).length
      = 6 * rows.length := by
    intro rows
    induction rows with
    | nil => rfl
    | cons r rows ih =>
      simp only [List.flatMap_cons, List.length_append, ih, List.length_map,
        List.length_cons]
      have h6 : LETTERS.length = 6 := rfl
      omega
  have h80 : rowsList.length = 80 := by decide
  rw [allSeats, h, h80]

theorem mem_rowsList {r : Nat} : r ∈ rowsList ↔ 1 ≤ r ∧ r ≤ 80 := by
  simp only [rowsList, List.mem_range']
  constructor
  · rintro ⟨i, hi, rfl⟩
    omega
  · rintro ⟨h1, h2⟩
    exact ⟨r - 1, by omega, by omega⟩

theorem mkSys_nil : mkSys [] = { seats := initTable, durable := [], view := [] } := by
  simp only [mkSys, load_existing_bookings, List.foldl_nil, init_seats_eq]

/-! ## Decomposition of the seat-code format check -/

theorem format_check_iff (t : PyStr) :
    (t.isEmpty || !pyIsAlphaChar (t.getLastD ' ') || !pyIsDigitStr t.dropLast) = false ↔
      ∃ ds c, t = ds ++ [c] ∧ pyIsDigitStr ds = true ∧ pyIsAlphaChar c = true := by
  constructor
  · intro h
    simp only [Bool.or_eq_false_iff, Bool.not_eq_false'] at h
    obtain ⟨⟨hne, halpha⟩, hdig⟩ := h
    have hne' : t ≠ [] := by simpa using hne
    refine ⟨t.dropLast, t.getLast hne', (List.dropLast_concat_getLast hne').symm, hdig, ?_⟩
    have ht : t = t.dropLast ++ [t.getLast hne'] := (List.dropLast_concat_getLast hne').symm
    rw [ht, List.getLastD_concat] at halpha
    exact halpha
  · rintro ⟨ds, c, rfl, hds, hc⟩
    simp only [Bool.or_eq_false_iff, Bool.not_eq_false']
    refine ⟨⟨by simp, ?_⟩, by simpa using hds⟩
    rw [List.getLastD_concat]
    exact hc

/-! ## Characterisation of `normalise_seat` -/

theorem normalise_malformed (seats : SeatMap) (raw : PyStr)
    (h : ¬∃ ds c, pyUpper (pyStrip raw) = ds ++ [c] ∧ pyIsDigitStr ds = true ∧
        pyIsAlphaChar c = true) :
    normalise_seat seats raw = .error (.valueError msgBadCode) := by
  have hfmt : ((pyUpper (pyStrip raw)).isEmpty ||
      !pyIsAlphaChar ((pyUpper (pyStrip raw)).getLastD ' ') ||
      !pyIsDigitStr (pyUpper (pyStrip raw)).dropLast) = true := by
    by_contra hcontra
    exact h ((format_check_iff _).mp (Bool.eq_false_iff.mpr hcontra))
  rw [normalise_seat, normalise_core, if_pos hfmt]

theorem normalise_shaped (seats : SeatMap) (raw ds : PyStr) (c : Char)
    (hsh : pyUpper (pyStrip raw) = ds ++ [c]) (hds : pyIsDigitStr ds = true)
    (hc : pyIsAlphaChar c = true) :
    normalise_seat seats raw = normalise_range seats (pyParseNat ds) c := by
  have hfmt : ((pyUpper (pyStrip raw)).isEmpty ||
      !pyIsAlphaChar ((pyUpper (pyStrip raw)).getLastD ' ') ||
      !pyIsDigitStr (pyUpper (pyStrip raw)).dropLast) = false :=
    (format_check_iff _).mpr ⟨ds, c, hsh, hds, hc⟩
  rw [normalise_seat, normalise_core,
    if_neg (by rw [hfmt]; exact Bool.false_ne_true), hsh,
    List.dropLast_concat, List.getLastD_concat]

theorem range_cond_false_iff (row : Nat) (letter : Char) :
    (!(decide (1 ≤ row) && decide (row ≤ 80)) || !(LETTERS.contains letter)) = false ↔
      (1 ≤ row ∧ row ≤ 80) ∧ letter ∈ LETTERS := by
  simp [List.contains]

theorem normalise_range_ok_elim (seats : SeatMap) (row : Nat) (letter : Char)
    (code : PyStr) (h : normalise_range seats row letter = .ok code) :
    row ∈ rowsList ∧ letter ∈ LETTERS ∧ code = mkCode row letter ∧
      ∃ v, dictGet seats code = some v ∧ v ≠ storVal := by
  rw [normalise_range] at h
  by_cases hcond : (1 ≤ row ∧ row ≤ 80) ∧ letter ∈ LETTERS
  · have hfalse : (!(decide (1 ≤ row) && decide (row ≤ 80)) || !(LETTERS.contains letter))
        = false := (range_cond_false_iff row letter).mpr hcond
    rw [if_neg (by rw [hfalse]; exact Bool.false_ne_true)] at h
    cases hget : dictGet seats (mkCode row letter) with
    | none => rw [hget] at h; exact Except.noConfusion h
    | some v =>
      rw [hget] at h
      dsimp only at h
      by_cases hv : v = storVal
      · rw [if_pos hv] at h; exact Except.noConfusion h
      · rw [if_neg hv] at h
        simp only [Except.ok.injEq] at h
        subst h
        exact ⟨mem_rowsList.mpr hcond.1, hcond.2, rfl, v, hget, hv⟩
  · have htrue : (!(decide (1 ≤ row) && decide (row ≤ 80)) || !(LETTERS.contains letter))
        = true := by
      rcases Bool.eq_false_or_eq_true
        (!(decide (1 ≤ row) && decide (row ≤ 80)) || !(LETTERS.contains letter)) with hb | hb
      · exact hb
      · exact absurd ((range_cond_false_iff row letter).mp hb) hcond
    rw [if_pos htrue] at h
    exact Except.noConfusion h

theorem normalise_ok_elim (seats : SeatMap) (raw code : PyStr)
    (h : normalise_seat seats raw = .ok code) :
    ∃ r c, r ∈ rowsList ∧ c ∈ LETTERS ∧ code = mkCode r c ∧
      ∃ v, dictGet seats code = some v ∧ v ≠ storVal := by
  by_cases hsh : ∃ ds c, pyUpper (pyStrip raw) = ds ++ [c] ∧ pyIsDigitStr ds = true ∧
      pyIsAlphaChar c = true
  · obtain ⟨ds, c, hsh, hds, hc⟩ := hsh
    rw [normalise_shaped seats raw ds c hsh hds hc] at h
    obtain ⟨h1, h2, h3, h4⟩ := normalise_range_ok_elim seats (pyParseNat ds) c code h
    exact ⟨pyParseNat ds, c, h1, h2, h3, h4⟩
  · rw [normalise_malformed seats raw hsh] at h
    exact absurd h (by simp)

theorem normalise_range_ok_intro (seats : SeatMap) (row : Nat) (letter : Char)
    (v : PyStr) (h1 : 1 ≤ row) (h2 : row ≤ 80) (h3 : letter ∈ LETTERS)
    (hget : dictGet seats (mkCode row letter) = some v) (hv : v ≠ storVal) :
    normalise_range seats row letter = .ok (mkCode row letter) := by
  rw [normalise_range, if_neg (by
    rw [(range_cond_false_iff row letter).mpr ⟨⟨h1, h2⟩, h3⟩]
    exact Bool.false_ne_true), hget]
  dsimp only
  rw [if_neg hv]

/-- Re-running `normalise_seat` on the same raw string against a seat map
that still holds a non-storage value at the resolved code succeeds with
the same code (the string checks do not depend on the map). -/
theorem normalise_stable (seats seats' : SeatMap) (raw code v' : PyStr)
    (h : normalise_seat seats raw = .ok code)
    (hget : dictGet seats' code = some v') (hv' : v' ≠ storVal) :
    normalise_seat seats' raw = .ok code := by
  by_cases hsh : ∃ ds c, pyUpper (pyStrip raw) = ds ++ [c] ∧ pyIsDigitStr ds = true ∧
      pyIsAlphaChar c = true
  · obtain ⟨ds, c, hsh, hds, hc⟩ := hsh
    rw [normalise_shaped seats raw ds c hsh hds hc] at h
    rw [normalise_shaped seats' raw ds c hsh hds hc]
    obtain ⟨h1, h2, h3, _⟩ := normalise_range_ok_elim seats (pyParseNat ds) c code h
    rw [mem_rowsList] at h1
    rw [h3] at hget ⊢
    exact normalise_range_ok_intro seats' (pyParseNat ds) c v' h1.1 h1.2 h2 hget hv'
  · rw [normalise_malformed seats raw hsh] at h
    exact absurd h (by simp)

/-! ## `_new_ref` properties -/

theorem getD_mem_alphabet (idx : Nat) : alphabet.getD idx 'A' ∈ alphabet := by
  rw [List.getD_eq_getElem?_getD]
  by_cases hlt : idx < alphabet.length
  · rw [List.getElem?_eq_getElem hlt]
    exact List.getElem_mem hlt
  · rw [List.getElem?_eq_none (by omega)]
    decide

theorem mkCandidate_wellRef (entropy : Nat → Fin 36) (k : Nat) :
    wellRef (mkCandidate entropy k) := by
  constructor
  · simp [mkCandidate]
  · intro c hc
    simp only [mkCandidate, List.mem_map] at hc
    obtain ⟨i, _, rfl⟩ := hc
    exact getD_mem_alphabet _

theorem new_ref_spec (seats : SeatMap) (view : List DBRecord) (entropy : Nat → Fin 36) :
    ∀ fuel k ref k1, new_ref seats view entropy fuel k = some (ref, k1) →
      wellRef ref ∧ ref ∉ dictValues seats ∧ ∀ r ∈ view, r.ref ≠ ref := by
  intro fuel
  induction fuel with
  | zero => intro k ref k1 h; exact Option.noConfusion h
  | succ fuel ih =>
    intro k ref k1 h
    simp only [new_ref] at h
    by_cases h1 : mkCandidate entropy k ∈ dictValues seats
    · rw [if_pos h1] at h; exact ih _ _ _ h
    · rw [if_neg h1] at h
      by_cases h2 : (view.any fun r => r.ref == mkCandidate entropy k) = true
      · rw [if_pos h2] at h; exact ih _ _ _ h
      · rw [if_neg h2] at h
        simp only [Option.some.injEq, Prod.mk.injEq] at h
        obtain ⟨hr, _⟩ := h
        subst hr
        refine ⟨mkCandidate_wellRef entropy k, h1, ?_⟩
        intro r hr heq
        exact h2 (List.any_eq_true.mpr ⟨r, hr, by simp [heq]⟩)

/-! ## `find_adjacent` agrees with the specified scan order -/

theorem findSome?_ifpred {α : Type _} (p : α → Bool) (l : List α) :
    l.findSome? (fun x => if p x then some x else none) = l.find? p := by
  induction l with
  | nil => rfl
  | cons a l ih =>
    by_cases h : p a <;>
      simp [List.findSome?_cons, h, ih, List.find?_cons_of_pos, List.find?_cons_of_neg]

theorem findSome?_flatMap {α β γ : Type _} (l : List α) (g : α → List β) (f : β → Option γ) :
    (l.flatMap g).findSome? f = l.findSome? fun a => (g a).findSome? f := by
  induction l with
  | nil => rfl
  | cons a l ih =>
    rw [List.flatMap_cons, List.findSome?_append, ih, List.findSome?_cons]
    cases hfa : (g a).findSome? f with
    | none => simp [hfa]
    | some b => simp [hfa]

theorem find_adjacent_eq_spec (seats : SeatMap) (n : Nat) (hn : n = 2 ∨ n = 3) :
    find_adjacent seats n = .ok (findBlock_spec seats n) := by
  have hcond : ¬(n ≠ 2 ∧ n ≠ 3) := by rcases hn with rfl | rfl <;> simp
  have hspec : findBlock_spec seats n =
      rowsList.findSome? fun row =>
        sides.findSome? fun side =>
          (List.range (side.length - n + 1)).findSome? fun i =>
            (fun block : List PyStr =>
                if block.all (fun s => dictGet seats s == some freeVal) then some block
                else none)
              (((side.drop i).take n).map fun ltr => mkCode row ltr) := by
    rw [findBlock_spec, ← findSome?_ifpred, specWindows, findSome?_flatMap]
    simp only [findSome?_flatMap, List.findSome?_map]
    rfl
  rw [find_adjacent, if_neg hcond, hspec]

/-! ## Invariant helper lemmas -/

theorem isStorageCode_of_storage {r : Nat} {c : Char} (hr : r ∈ STORAGE_ROWS)
    (hc : c ∈ STORAGE_COLS) : isStorageCode (mkCode r c) = true := by
  simp only [isStorageCode, List.any_eq_true, beq_iff_eq]
  exact ⟨r, hr, c, hc, rfl⟩

theorem get_isSome_of_keys {m : SeatMap} {code : PyStr} (hkeys : m.map (·.1) = allSeats)
    (hmem : code ∈ allSeats) : ∃ v, dictGet m code = some v := by
  cases hget : dictGet m code with
  | none => exact absurd (hkeys ▸ (dictGet_eq_none_iff m code).mp hget) (by simp [hmem])
  | some v => exact ⟨v, rfl⟩

theorem not_storage_of_get {m : SeatMap} {code v : PyStr} (hOK : SeatsOK m)
    (hget : dictGet m code = some v) (hv : v ≠ storVal) : isStorageCode code = false := by
  rcases Bool.eq_false_or_eq_true (isStorageCode code) with hb | hb
  · exact absurd (hOK.2 (code, v) (dictGet_mem m code v hget) hb) hv
  · exact hb

theorem SeatsOK_set {m : SeatMap} {code v : PyStr} (hOK : SeatsOK m)
    (hmem : code ∈ allSeats) (hns : isStorageCode code = false) :
    SeatsOK (dictSet m code v) := by
  refine ⟨by rw [keys_dictSet_of_mem m code v (hOK.1 ▸ hmem), hOK.1], ?_⟩
  intro p hp hst
  rcases mem_dictSet m code v p hp with rfl | hp
  · exact absurd hst (by simp [hns])
  · exact hOK.2 p hp hst

theorem ValsOK_set {m : SeatMap} {code v : PyStr} (hOK : ValsOK m)
    (hv : v = freeVal ∨ v = storVal ∨ wellRef v) : ValsOK (dictSet m code v) := by
  intro p hp
  rcases mem_dictSet m code v p hp with rfl | hp
  · exact hv
  · exact hOK p hp

theorem storage_val_of_SeatsOK {m : SeatMap} {r : Nat} {c : Char} (hOK : SeatsOK m)
    (hr : r ∈ STORAGE_ROWS) (hc : c ∈ STORAGE_COLS) :
    dictGet m (mkCode r c) = some storVal := by
  have hrow : r ∈ rowsList := by
    rcases (by simpa [STORAGE_ROWS] using hr : r = 77 ∨ r = 78) with rfl | rfl <;> decide
  have hcol : c ∈ LETTERS := by
    rcases (by simpa [STORAGE_COLS, pys] using hc : c = 'D' ∨ c = 'E' ∨ c = 'F') with
      rfl | rfl | rfl <;> decide
  obtain ⟨v, hget⟩ := get_isSome_of_keys hOK.1 (mkCode_mem_allSeats hrow hcol)
  have := hOK.2 (mkCode r c, v) (dictGet_mem _ _ _ hget) (isStorageCode_of_storage hr hc)
  rw [hget]
  exact congrArg some this

/-! ## `find_adjacent` result facts -/

theorem sides_sub_LETTERS : ∀ side ∈ sides, ∀ ltr ∈ side, ltr ∈ LETTERS := by decide

theorem find_adjacent_block (seats : SeatMap) (n : Nat) (block : List PyStr)
    (h : find_adjacent seats n = .ok (some block)) :
    ∀ s ∈ block, s ∈ allSeats ∧ dictGet seats s = some freeVal := by
  rw [find_adjacent] at h
  by_cases hcond : n ≠ 2 ∧ n ≠ 3
  · rw [if_pos hcond] at h; exact Except.noConfusion h
  · rw [if_neg hcond] at h
    simp only [Except.ok.injEq] at h
    obtain ⟨row, hrow, h2⟩ := List.exists_of_findSome?_eq_some h
    obtain ⟨side, hside, h3⟩ := List.exists_of_findSome?_eq_some h2
    obtain ⟨i, _, h4⟩ := List.exists_of_findSome?_eq_some h3
    by_cases hall : (((side.drop i).take n).map fun ltr => mkCode row ltr).all
        (fun s => dictGet seats s == some freeVal) = true
    · rw [if_pos hall] at h4
      simp only [Option.some.injEq] at h4
      subst h4
      intro s hs
      simp only [List.mem_map] at hs
      obtain ⟨ltr, hltr, rfl⟩ := hs
      have hltr' : ltr ∈ side := List.mem_of_mem_drop (List.mem_of_mem_take hltr)
      refine ⟨mkCode_mem_allSeats hrow (sides_sub_LETTERS side hside ltr hltr'), ?_⟩
      have := List.all_eq_true.mp hall (mkCode row ltr) (List.mem_map_of_mem _ hltr)
      simpa using this
    · rw [if_neg hall] at h4
      exact Option.noConfusion h4

/-! ## `summary` counts partition the seat map -/

theorem summary_fold (vs : List PyStr) : ∀ acc : Nat × Nat × Nat,
    (vs.foldl
      (fun (c : Nat × Nat × Nat) v =>
        if v = freeVal then (c.1 + 1, c.2.1, c.2.2)
        else if v = storVal then (c.1, c.2.1 + 1, c.2.2)
        else (c.1, c.2.1, c.2.2 + 1))
      acc).1 +
    (vs.foldl
      (fun (c : Nat × Nat × Nat) v =>
        if v = freeVal then (c.1 + 1, c.2.1, c.2.2)
        else if v = storVal then (c.1, c.2.1 + 1, c.2.2)
        else (c.1, c.2.1, c.2.2 + 1))
      acc).2.1 +
    (vs.foldl
      (fun (c : Nat × Nat × Nat) v =>
        if v = freeVal then (c.1 + 1, c.2.1, c.2.2)
        else if v = storVal then (c.1, c.2.1 + 1, c.2.2)
        else (c.1, c.2.1, c.2.2 + 1))
      acc).2.2 = acc.1 + acc.2.1 + acc.2.2 + vs.length := by
  induction vs with
  | nil => intro acc; simp
  | cons v vs ih =>
    intro acc
    rw [List.foldl_cons]
    by_cases h1 : v = freeVal
    · rw [if_pos h1]
      rw [ih]
      simp only [List.length_cons]
      omega
    · rw [if_neg h1]
      by_cases h2 : v = storVal
      · rw [if_pos h2, ih]
        simp only [List.length_cons]
        omega
      · rw [if_neg h2, ih]
        simp only [List.length_cons]
        omega

theorem summary_sum (m : SeatMap) :
    (summary m).free + (summary m).reserved + (summary m).storage = m.length := by
  have h := summary_fold (dictValues m) (0, 0, 0)
  simp only [summary, dictValues, List.length_map] at h ⊢
  omega

/-! ## Storage coordinates and storage codes -/

theorem storage_of_isStorageCode {r : Nat} {c : Char} (hr : r ∈ rowsList)
    (h : isStorageCode (mkCode r c) = true) : isStorage r c = true := by
  simp only [isStorageCode, List.any_eq_true, beq_iff_eq] at h
  obtain ⟨r2, hr2, c2, hc2, heq⟩ := h
  obtain ⟨hnat, rfl⟩ := mkCode_inj heq
  have hr2rows : r2 ∈ rowsList := by
    rcases (by simpa [STORAGE_ROWS] using hr2 : r2 = 77 ∨ r2 = 78) with rfl | rfl <;> decide
  have hrr : r = r2 := natStr_inj_rows hr hr2rows hnat
  subst hrr
  simp only [isStorage, Bool.and_eq_true, decide_eq_true_eq]
  exact ⟨hr2, hc2⟩

/-! ## The invariants hold at construction and survive hydration -/

theorem init_seats_SeatsOK : SeatsOK init_seats := by
  refine ⟨keys_init_seats, ?_⟩
  rw [init_seats_eq]
  intro p hp hst
  simp only [initTable, List.mem_flatMap, List.mem_map] at hp
  obtain ⟨r, hr, c, hc, rfl⟩ := hp
  dsimp only at hst ⊢
  rw [if_pos (storage_of_isStorageCode hr hst)]

theorem init_seats_ValsOK : ValsOK init_seats := by
  rw [init_seats_eq]
  intro p hp
  simp only [initTable, List.mem_flatMap, List.mem_map] at hp
  obtain ⟨r, _, c, _, rfl⟩ := hp
  dsimp only
  by_cases h : isStorage r c = true
  · rw [if_pos h]; exact .inr (.inl rfl)
  · rw [if_neg h]; exact .inl rfl

theorem load_preserves (recs : List DBRecord) : ∀ m : SeatMap, SeatsOK m →
    SeatsOK (load_existing_bookings m recs) ∧
      ((∀ rec ∈ recs, wellRef rec.ref) → ValsOK m →
        ValsOK (load_existing_bookings m recs)) := by
  induction recs with
  | nil => intro m hOK; exact ⟨hOK, fun _ hv => hv⟩
  | cons rec recs ih =>
    intro m hOK
    rw [load_existing_bookings, List.foldl_cons]
    by_cases hget : dictGet m (recCode rec) = some freeVal
    · rw [if_pos hget]
      have hmem : recCode rec ∈ allSeats := by
        rw [← hOK.1]
        exact List.mem_map_of_mem (·.1) (dictGet_mem _ _ _ hget)
      have hns : isStorageCode (recCode rec) = false :=
        not_storage_of_get hOK hget (by decide)
      have hOK2 : SeatsOK (dictSet m (recCode rec) rec.ref) := SeatsOK_set hOK hmem hns
      refine ⟨(ih _ hOK2).1, fun hwf hv => (ih _ hOK2).2 ?_ ?_⟩
      · intro r2 hr2; exact hwf r2 (List.mem_cons_of_mem rec hr2)
      · exact ValsOK_set hv (.inr (.inr (hwf rec (List.mem_cons_self rec recs))))
    · rw [if_neg hget]
      refine ⟨(ih m hOK).1, fun hwf hv => (ih m hOK).2 ?_ hv⟩
      intro r2 hr2; exact hwf r2 (List.mem_cons_of_mem rec hr2)

theorem mkSys_SeatsOK (store : List DBRecord) : SeatsOK (mkSys store).seats :=
  (load_preserves store init_seats init_seats_SeatsOK).1

theorem mkSys_ValsOK (store : List DBRecord) (hwf : ∀ rec ∈ store, wellRef rec.ref) :
    ValsOK (mkSys store).seats :=
  (load_preserves store init_seats init_seats_SeatsOK).2 hwf init_seats_ValsOK

/-! ## The invariants survive every public operation -/

theorem book_seat_preserves (st : Sys) (raw p f l : PyStr) (entropy : Nat → Fin 36)
    (fuel : Nat) (f1 f2 : Bool) (hOK : SeatsOK st.seats) :
    SeatsOK (book_seat st raw p f l entropy fuel f1 f2).2.seats ∧
      (ValsOK st.seats → ValsOK (book_seat st raw p f l entropy fuel f1 f2).2.seats) := by
  rw [book_seat]
  cases hnorm : normalise_seat st.seats raw with
  | error e => exact ⟨hOK, id⟩
  | ok code =>
    obtain ⟨r, c, hr, hc, hcodeEq, v0, hget0, hv0⟩ := normalise_ok_elim _ _ _ hnorm
    have hmem : code ∈ allSeats := by rw [hcodeEq]; exact mkCode_mem_allSeats hr hc
    have hns : isStorageCode code = false := not_storage_of_get hOK hget0 hv0
    try dsimp only
    rw [hget0]
    try dsimp only
    by_cases hfree : v0 ≠ freeVal
    · rw [if_pos hfree]; exact ⟨hOK, id⟩
    · rw [if_neg hfree]
      cases hnr : new_ref st.seats st.view entropy fuel 0 with
      | none => exact ⟨hOK, id⟩
      | some refk =>
        obtain ⟨ref, k1⟩ := refk
        have href := (new_ref_spec st.seats st.view entropy fuel 0 ref k1 hnr).1
        have hOK1 : SeatsOK (dictSet st.seats code ref) := SeatsOK_set hOK hmem hns
        have hV1 : ValsOK st.seats → ValsOK (dictSet st.seats code ref) :=
          fun hv => ValsOK_set hv (.inr (.inr href))
        try dsimp only
        by_cases hf1 : f1 = true
        · rw [if_pos hf1]; exact ⟨hOK1, hV1⟩
        · rw [if_neg hf1]
          try dsimp only
          by_cases hf2 : f2 = true
          · rw [if_pos hf2]; exact ⟨hOK1, hV1⟩
          · rw [if_neg hf2]
            try dsimp only
            have hmem1 : code ∈ (dictSet st.seats code ref).map (·.1) := hOK1.1 ▸ hmem
            exact ⟨SeatsOK_set hOK1 hmem hns,
              fun hv => ValsOK_set (hV1 hv) (.inr (.inr href))⟩

theorem free_seat_preserves (st : Sys) (raw : PyStr) (f1 f2 : Bool)
    (hOK : SeatsOK st.seats) :
    SeatsOK (free_seat st raw f1 f2).2.seats ∧
      (ValsOK st.seats → ValsOK (free_seat st raw f1 f2).2.seats) := by
  rw [free_seat]
  cases hnorm : normalise_seat st.seats raw with
  | error e => exact ⟨hOK, id⟩
  | ok code =>
    obtain ⟨r, c, hr, hc, hcodeEq, v0, hget0, hv0⟩ := normalise_ok_elim _ _ _ hnorm
    have hmem : code ∈ allSeats := by rw [hcodeEq]; exact mkCode_mem_allSeats hr hc
    have hns : isStorageCode code = false := not_storage_of_get hOK hget0 hv0
    try dsimp only
    rw [hget0]
    try dsimp only
    by_cases hfree : v0 = freeVal
    · rw [if_pos hfree]; exact ⟨hOK, id⟩
    · rw [if_neg hfree]
      by_cases hf1 : f1 = true
      · rw [if_pos hf1]; exact ⟨hOK, id⟩
      · rw [if_neg hf1]
        try dsimp only
        by_cases hf2 : f2 = true
        · rw [if_pos hf2]; exact ⟨hOK, id⟩
        · rw [if_neg hf2]
          try dsimp only
          exact ⟨SeatsOK_set hOK hmem hns, fun hv => ValsOK_set hv (.inl rfl)⟩

theorem bookAdjLoop_preserves (entropy : Nat → Fin 36) (fuel : Nat) :
    ∀ (ps : List Passenger) (bs : List PyStr) (k : Nat) (sched : List Bool)
      (acc : List (PyStr × PyStr)) (st : Sys), SeatsOK st.seats →
      (∀ s ∈ bs, s ∈ allSeats ∧ isStorageCode s = false) →
      SeatsOK (bookAdjLoop st entropy fuel ps bs k sched acc).2.1.seats ∧
        (ValsOK st.seats →
          ValsOK (bookAdjLoop st entropy fuel ps bs k sched acc).2.1.seats) := by
  intro ps
  induction ps with
  | nil => intro bs k sched acc st hOK _; exact ⟨hOK, id⟩
  | cons p ps ih =>
    intro bs k sched acc st hOK hbs
    cases bs with
    | nil => exact ⟨hOK, id⟩
    | cons seat bs =>
      rw [bookAdjLoop]
      cases hnr : new_ref st.seats st.view entropy fuel k with
      | none => exact ⟨hOK, id⟩
      | some refk =>
        obtain ⟨ref, k1⟩ := refk
        have href := (new_ref_spec st.seats st.view entropy fuel k ref k1 hnr).1
        try dsimp only
        by_cases hsched : sched.headD false = true
        · rw [if_pos hsched]; exact ⟨hOK, id⟩
        · rw [if_neg hsched]
          try dsimp only
          have hseat := hbs seat (List.mem_cons_self seat bs)
          have hOK1 : SeatsOK (dictSet st.seats seat ref) :=
            SeatsOK_set hOK hseat.1 hseat.2
          refine (ih bs k1 sched.tail (acc ++ [(seat, ref)]) _ hOK1 ?_).imp id ?_
          · intro s hs; exact hbs s (List.mem_cons_of_mem seat hs)
          · intro hrec hv
            exact hrec (ValsOK_set hv (.inr (.inr href)))

theorem book_adjacent_preserves (st : Sys) (passengers : List Passenger)
    (entropy : Nat → Fin 36) (fuel : Nat) (sched : List Bool) (hOK : SeatsOK st.seats) :
    SeatsOK (book_adjacent st passengers entropy fuel sched).2.seats ∧
      (ValsOK st.seats → ValsOK (book_adjacent st passengers entropy fuel sched).2.seats) := by
  rw [book_adjacent]
  by_cases hn : passengers.length ≠ 2 ∧ passengers.length ≠ 3
  · rw [if_pos hn]; exact ⟨hOK, id⟩
  · rw [if_neg hn]
    cases hfind : find_adjacent st.seats passengers.length with
    | error e => exact ⟨hOK, id⟩
    | ok oblock =>
      cases oblock with
      | none => exact ⟨hOK, id⟩
      | some block =>
        have hblock : ∀ s ∈ block, s ∈ allSeats ∧ isStorageCode s = false := by
          intro s hs
          obtain ⟨hmem, hfree⟩ := find_adjacent_block st.seats passengers.length block hfind s hs
          exact ⟨hmem, not_storage_of_get hOK hfree (by decide)⟩
        have hloop := bookAdjLoop_preserves entropy fuel passengers block 0 sched [] st hOK hblock
        try dsimp only
        cases hres : bookAdjLoop st entropy fuel passengers block 0 sched [] with
        | mk res rest =>
          obtain ⟨st1, schedLeft⟩ := rest
          rw [hres] at hloop
          cases res with
          | error e => exact hloop
          | ok acc =>
            try dsimp only
            by_cases hsl : schedLeft.headD false = true
            · rw [if_pos hsl]; exact hloop
            · rw [if_neg hsl]; exact hloop

theorem applyOp_preserves (st : Sys) (op : Op) (hOK : SeatsOK st.seats) :
    SeatsOK (applyOp st op).seats ∧
      (ValsOK st.seats → ValsOK (applyOp st op).seats) := by
  cases op with
  | status raw => exact ⟨hOK, id⟩
  | book raw p f l entropy fuel f1 f2 => exact book_seat_preserves st raw p f l entropy fuel f1 f2 hOK
  | free raw f1 f2 => exact free_seat_preserves st raw f1 f2 hOK
  | group ps entropy fuel sched => exact book_adjacent_preserves st ps entropy fuel sched hOK
  | report => exact ⟨hOK, id⟩

theorem runOps_preserves (ops : List Op) : ∀ st : Sys, SeatsOK st.seats →
    SeatsOK (runOps st ops).seats ∧
      (ValsOK st.seats → ValsOK (runOps st ops).seats) := by
  induction ops with
  | nil => intro st hOK; exact ⟨hOK, id⟩
  | cons op ops ih =>
    intro st hOK
    rw [runOps, List.foldl_cons]
    have h1 := applyOp_preserves st op hOK
    have h2 := ih (applyOp st op) h1.1
    exact ⟨h2.1, fun hv => h2.2 (h1.2 hv)⟩

theorem runOps_SeatsOK (store : List DBRecord) (ops : List Op) :
    SeatsOK (runOps (mkSys store) ops).seats :=
  (runOps_preserves ops (mkSys store) (mkSys_SeatsOK store)).1

theorem runOps_ValsOK (store : List DBRecord) (ops : List Op)
    (hwf : ∀ rec ∈ store, wellRef rec.ref) :
    ValsOK (runOps (mkSys store) ops).seats :=
  (runOps_preserves ops (mkSys store) (mkSys_SeatsOK store)).2 (mkSys_ValsOK store hwf)

/-! ## Error-path lemmas: a failed validation leaves the state untouched -/

theorem seat_status_error (st : Sys) (raw : PyStr) (e : PyErr)
    (h : normalise_seat st.seats raw = .error e) : seat_status st raw = .error e := by
  rw [seat_status, h]

theorem book_seat_error (st : Sys) (raw p f l : PyStr) (entropy : Nat → Fin 36)
    (fuel : Nat) (f1 f2 : Bool) (e : PyErr) (h : normalise_seat st.seats raw = .error e) :
    book_seat st raw p f l entropy fuel f1 f2 = (.error e, st) := by
  rw [book_seat, h]

theorem free_seat_error (st : Sys) (raw : PyStr) (f1 f2 : Bool) (e : PyErr)
    (h : normalise_seat st.seats raw = .error e) :
    free_seat st raw f1 f2 = (.error e, st) := by
  rw [free_seat, h]

theorem normalise_storage_error (st : Sys) (raw ds : PyStr) (r : Nat) (c : Char)
    (hOK : SeatsOK st.seats) (hr : r ∈ STORAGE_ROWS) (hc : c ∈ STORAGE_COLS)
    (hdec : pyUpper (pyStrip raw) = ds ++ [c]) (hds : pyIsDigitStr ds = true)
    (hparse : pyParseNat ds = r) :
    normalise_seat st.seats raw = .error (.valueError (msgStorage (mkCode r c))) := by
  have halpha : pyIsAlphaChar c = true := by
    rcases (by simpa [STORAGE_COLS, pys] using hc : c = 'D' ∨ c = 'E' ∨ c = 'F') with
      rfl | rfl | rfl <;> decide
  have hr' : r = 77 ∨ r = 78 := by simpa [STORAGE_ROWS] using hr
  have hcL : c ∈ LETTERS := by
    rcases (by simpa [STORAGE_COLS, pys] using hc : c = 'D' ∨ c = 'E' ∨ c = 'F') with
      rfl | rfl | rfl <;> decide
  have hget := storage_val_of_SeatsOK hOK hr hc
  rw [normalise_shaped st.seats raw ds c hdec hds halpha, hparse, normalise_range,
    if_neg (by
      rw [(range_cond_false_iff r c).mpr ⟨by omega, hcL⟩]
      exact Bool.false_ne_true), hget]
  dsimp only
  rw [if_pos rfl]

/-! ## Claim theorems: invariants -/

/-- C3: after construction against any persisted store and after every finite
sequence of public operations (seat status checks, single bookings, freeings,
group bookings, summaries — each with any injected randomness and any injected
persistence failures), the counts reported by `summary` satisfy
`free + reserved + storage = 480`. -/
theorem C3_summary_invariant (store : List DBRecord) (ops : List Op) :
    (summary (runOps (mkSys store) ops).seats).free +
      (summary (runOps (mkSys store) ops).seats).reserved +
      (summary (runOps (mkSys store) ops).seats).storage = 480 := by
  rw [summary_sum]
  have hkeys := (runOps_SeatsOK store ops).1
  calc (runOps (mkSys store) ops).seats.length
      = ((runOps (mkSys store) ops).seats.map (·.1)).length := (List.length_map _ _).symm
    _ = allSeats.length := by rw [hkeys]
    _ = 480 := allSeats_length

theorem wellRef_ne (v : PyStr) (h : wellRef v) :
    v ≠ freeVal ∧ v ≠ storVal ∧ v ≠ pys "R" := by
  refine ⟨?_, ?_, ?_⟩ <;> intro he <;> rw [he] at h <;> exact absurd h.1 (by decide)

/-- C10: after construction against any store whose records carry well-formed
8-character references, and after every public operation, the seat dict is
well-formed: its key list is exactly the 480 layout codes (stray hydration
records never add keys), and every value is `"F"`, `"S"`, or an 8-character
reference over A-Z/0-9 — never the legacy marker `"R"`, and never a string
colliding with `"F"` or `"S"`, so `summary`'s classification is unambiguous. -/
theorem C10_wellformed (store : List DBRecord) (ops : List Op)
    (hwf : ∀ rec ∈ store, wellRef rec.ref) :
    (runOps (mkSys store) ops).seats.map (·.1) = allSeats ∧
      ∀ p ∈ (runOps (mkSys store) ops).seats,
        p.2 = freeVal ∨ p.2 = storVal ∨
          (wellRef p.2 ∧ p.2 ≠ freeVal ∧ p.2 ≠ storVal ∧ p.2 ≠ pys "R") := by
  refine ⟨(runOps_SeatsOK store ops).1, ?_⟩
  intro p hp
  rcases runOps_ValsOK store ops hwf p hp with h | h | h
  · exact .inl h
  · exact .inr (.inl h)
  · exact .inr (.inr ⟨h, wellRef_ne p.2 h⟩)

/-- C10 witness: a store with one well-formed record, no operations. -/
theorem C10_wellformed_witness :
    (∀ rec ∈ [DBRecord.mk (pys "AAAAAAAA") (pys "P1") (pys "Ann") (pys "Lee") 1 (pys "A")],
        wellRef rec.ref) ∧
      ((runOps (mkSys [DBRecord.mk (pys "AAAAAAAA") (pys "P1") (pys "Ann") (pys "Lee") 1
            (pys "A")]) []).seats.map (·.1) = allSeats ∧
        ∀ p ∈ (runOps (mkSys [DBRecord.mk (pys "AAAAAAAA") (pys "P1") (pys "Ann")
            (pys "Lee") 1 (pys "A")]) []).seats,
          p.2 = freeVal ∨ p.2 = storVal ∨
            (wellRef p.2 ∧ p.2 ≠ freeVal ∧ p.2 ≠ storVal ∧ p.2 ≠ pys "R")) :=
  ⟨by decide, C10_wellformed _ [] (by decide)⟩

/-- C4: a storage seat (row 77 or 78, column D/E/F) always reports status
`"S"` — never `Free`, never a reservation — after construction against any
store (hydration never overwrites it, even if the store holds a record for
its coordinates) and after any sequence of operations; and every status,
booking or freeing attempt naming that seat fails with the `StorageSeat`
`ValueError` and returns the state unchanged. -/
theorem C4_storage (store : List DBRecord) (ops : List Op) (r : Nat) (c : Char)
    (hr : r ∈ STORAGE_ROWS) (hc : c ∈ STORAGE_COLS) :
    dictGet (runOps (mkSys store) ops).seats (mkCode r c) = some storVal ∧
      ∀ raw ds, pyUpper (pyStrip raw) = ds ++ [c] → pyIsDigitStr ds = true →
        pyParseNat ds = r →
        seat_status (runOps (mkSys store) ops) raw =
            .error (.valueError (msgStorage (mkCode r c))) ∧
          (∀ p f l entropy fuel f1 f2,
            book_seat (runOps (mkSys store) ops) raw p f l entropy fuel f1 f2 =
              (.error (.valueError (msgStorage (mkCode r c))), runOps (mkSys store) ops)) ∧
          (∀ f1 f2, free_seat (runOps (mkSys store) ops) raw f1 f2 =
              (.error (.valueError (msgStorage (mkCode r c))), runOps (mkSys store) ops)) := by
  have hOK := runOps_SeatsOK store ops
  refine ⟨storage_val_of_SeatsOK hOK hr hc, ?_⟩
  intro raw ds hdec hds hparse
  have herr := normalise_storage_error (runOps (mkSys store) ops) raw ds r c hOK hr hc
    hdec hds hparse
  exact ⟨seat_status_error _ _ _ herr,
    fun p f l entropy fuel f1 f2 => book_seat_error _ _ p f l entropy fuel f1 f2 _ herr,
    fun f1 f2 => free_seat_error _ _ f1 f2 _ herr⟩

/-- C4 witness: seat 77D on a freshly constructed empty-store system, named
by the raw string `" 77d "`. -/
theorem C4_storage_witness :
    77 ∈ STORAGE_ROWS ∧ 'D' ∈ STORAGE_COLS ∧
      pyUpper (pyStrip (pys " 77d ")) = pys "77" ++ ['D'] ∧
      dictGet (runOps (mkSys []) []).seats (mkCode 77 'D') = some storVal ∧
      seat_status (runOps (mkSys []) []) (pys " 77d ") =
        .error (.valueError (msgStorage (mkCode 77 'D'))) :=
  ⟨by decide, by decide, by decide,
    (C4_storage [] [] 77 'D' (by decide) (by decide)).1,
    ((C4_storage [] [] 77 'D' (by decide) (by decide)).2 (pys " 77d ") (pys "77")
      (by decide) (by decide) (by decide)).1⟩

/-! ## Exact result of the single-seat operations on each path -/

theorem book_seat_taken (st : Sys) (raw code p f l v : PyStr) (entropy : Nat → Fin 36)
    (fuel : Nat) (f1 f2 : Bool) (hnorm : normalise_seat st.seats raw = .ok code)
    (hget : dictGet st.seats code = some v) (hv : v ≠ freeVal) :
    book_seat st raw p f l entropy fuel f1 f2 = (.ok none, st) := by
  rw [book_seat, hnorm]
  dsimp only
  rw [hget]
  dsimp only
  rw [if_pos hv]

theorem book_seat_success (st : Sys) (raw code p f l ref : PyStr)
    (entropy : Nat → Fin 36) (fuel k1 : Nat)
    (hnorm : normalise_seat st.seats raw = .ok code)
    (hget : dictGet st.seats code = some freeVal)
    (hnr : new_ref st.seats st.view entropy fuel 0 = some (ref, k1)) :
    book_seat st raw p f l entropy fuel false false =
      (.ok (some ref),
        { seats := dictSet (dictSet st.seats code ref) code ref
          durable := st.view ++ [⟨ref, p, f, l, pyParseNat code.dropLast,
            [code.getLastD ' ']⟩]
          view := st.view ++ [⟨ref, p, f, l, pyParseNat code.dropLast,
            [code.getLastD ' ']⟩] }) := by
  rw [book_seat, hnorm]
  dsimp only
  rw [hget]
  dsimp only
  rw [if_neg (fun hn => hn rfl), hnr]
  dsimp only
  rw [if_neg Bool.false_ne_true, if_neg Bool.false_ne_true]

theorem free_seat_already_free (st : Sys) (raw code : PyStr) (f1 f2 : Bool)
    (hnorm : normalise_seat st.seats raw = .ok code)
    (hget : dictGet st.seats code = some freeVal) :
    free_seat st raw f1 f2 = (.ok false, st) := by
  rw [free_seat, hnorm]
  dsimp only
  rw [hget]
  dsimp only
  rw [if_pos rfl]

theorem free_seat_success (st : Sys) (raw code v : PyStr)
    (hnorm : normalise_seat st.seats raw = .ok code)
    (hget : dictGet st.seats code = some v) (hv : v ≠ freeVal) :
    free_seat st raw false false =
      (.ok true,
        { seats := dictSet st.seats code freeVal
          durable := st.view.filter fun r =>
            !(r.row = pyParseNat code.dropLast && r.col = [code.getLastD ' '])
          view := st.view.filter fun r =>
            !(r.row = pyParseNat code.dropLast && r.col = [code.getLastD ' ']) }) := by
  rw [free_seat, hnorm]
  dsimp only
  rw [hget]
  dsimp only
  rw [if_neg hv, if_neg Bool.false_ne_true, if_neg Bool.false_ne_true]

/-! ## Claim theorem: single-seat booking and freeing behaviour -/

/-- C7: on any reachable seat map, for a raw code that validates to a
non-storage seat: booking succeeds with a fresh reference exactly when the
seat is `Free` (given the durable writes succeed and the reference retry
loop terminates) and returns `None` without touching the state otherwise;
book-then-book returns success then `NotAvailable` with no state change;
book-then-free-then-free returns success, `true`, then `false`. -/
theorem C7_book_free (st : Sys) (raw code pA fA lA pB fB lB : PyStr)
    (entropy entropyB : Nat → Fin 36) (fuel fuelB : Nat)
    (hnorm : normalise_seat st.seats raw = .ok code) :
    (∀ v, dictGet st.seats code = some v → v ≠ freeVal →
      book_seat st raw pA fA lA entropy fuel false false = (.ok none, st)) ∧
    (∀ ref k1, dictGet st.seats code = some freeVal →
      new_ref st.seats st.view entropy fuel 0 = some (ref, k1) →
      (book_seat st raw pA fA lA entropy fuel false false).1 = .ok (some ref) ∧
      dictGet (book_seat st raw pA fA lA entropy fuel false false).2.seats code =
        some ref ∧
      book_seat (book_seat st raw pA fA lA entropy fuel false false).2 raw pB fB lB
          entropyB fuelB false false =
        (.ok none, (book_seat st raw pA fA lA entropy fuel false false).2) ∧
      (free_seat (book_seat st raw pA fA lA entropy fuel false false).2 raw
          false false).1 = .ok true ∧
      (free_seat (free_seat (book_seat st raw pA fA lA entropy fuel false false).2 raw
          false false).2 raw false false).1 = .ok false) := by
  constructor
  · intro v hget hv
    exact book_seat_taken st raw code pA fA lA v entropy fuel false false hnorm hget hv
  · intro ref k1 hget hnr
    have hwr := (new_ref_spec st.seats st.view entropy fuel 0 ref k1 hnr).1
    obtain ⟨hrefF, hrefS, _⟩ := wellRef_ne ref hwr
    set bk := book_seat st raw pA fA lA entropy fuel false false with hbk
    have hb : bk = (.ok (some ref),
        { seats := dictSet (dictSet st.seats code ref) code ref
          durable := st.view ++ [⟨ref, pA, fA, lA, pyParseNat code.dropLast,
            [code.getLastD ' ']⟩]
          view := st.view ++ [⟨ref, pA, fA, lA, pyParseNat code.dropLast,
            [code.getLastD ' ']⟩] }) := by
      rw [hbk]
      exact book_seat_success st raw code pA fA lA ref entropy fuel k1 hnorm hget hnr
    have h1 : bk.1 = .ok (some ref) := by rw [hb]
    have h2 : bk.2.seats = dictSet (dictSet st.seats code ref) code ref := by rw [hb]
    have hget1 : dictGet bk.2.seats code = some ref := by
      rw [h2]; exact dictGet_dictSet_self _ _ _
    have hnorm1 : normalise_seat bk.2.seats raw = .ok code :=
      normalise_stable st.seats _ raw code ref hnorm hget1 hrefS
    set fr := free_seat bk.2 raw false false with hfr
    have hf : fr = (.ok true,
        { seats := dictSet bk.2.seats code freeVal
          durable := bk.2.view.filter fun r =>
            !(r.row = pyParseNat code.dropLast && r.col = [code.getLastD ' '])
          view := bk.2.view.filter fun r =>
            !(r.row = pyParseNat code.dropLast && r.col = [code.getLastD ' ']) }) := by
      rw [hfr]
      exact free_seat_success bk.2 raw code ref hnorm1 hget1 hrefF
    have hf1 : fr.1 = .ok true := by rw [hf]
    have hf2 : fr.2.seats = dictSet bk.2.seats code freeVal := by rw [hf]
    have hget2 : dictGet fr.2.seats code = some freeVal := by
      rw [hf2]; exact dictGet_dictSet_self _ _ _
    have hnorm2 : normalise_seat fr.2.seats raw = .ok code :=
      normalise_stable bk.2.seats _ raw code freeVal hnorm1 hget2 (by decide)
    refine ⟨h1, hget1, ?_, hf1, ?_⟩
    · exact book_seat_taken bk.2 raw code pB fB lB ref entropyB fuelB false false
        hnorm1 hget1 hrefF
    · rw [free_seat_already_free fr.2 raw code false false hnorm2 hget2]

/-- C7 witness: booking, rebooking and freeing seat 1A on a fresh system. -/
theorem C7_book_free_witness :
    normalise_seat (mkSys []).seats (pys "1A") = .ok (pys "1A") ∧
    dictGet (mkSys []).seats (pys "1A") = some freeVal ∧
    new_ref (mkSys []).seats (mkSys []).view entropyA 1 0 = some (pys "AAAAAAAA", 1) ∧
    (book_seat (mkSys []) (pys "1A") (pys "P1") (pys "Ann") (pys "Lee") entropyA 1
        false false).1 = .ok (some (pys "AAAAAAAA")) ∧
    (free_seat (book_seat (mkSys []) (pys "1A") (pys "P1") (pys "Ann") (pys "Lee")
        entropyA 1 false false).2 (pys "1A") false false).1 = .ok true := by
  have hnorm : normalise_seat (mkSys []).seats (pys "1A") = .ok (pys "1A") := by
    rw [mkSys_nil]; decide
  have hget : dictGet (mkSys []).seats (pys "1A") = some freeVal := by
    rw [mkSys_nil]; decide
  have hnr : new_ref (mkSys []).seats (mkSys []).view entropyA 1 0 =
      some (pys "AAAAAAAA", 1) := by
    rw [mkSys_nil]; decide
  have h := (C7_book_free (mkSys []) (pys "1A") (pys "1A") (pys "P1") (pys "Ann")
    (pys "Lee") (pys "P2") (pys "Bob") (pys "Kim") entropyA entropyA 1 1
    hnorm).2 (pys "AAAAAAAA") 1 hget hnr
  exact ⟨hnorm, hget, hnr, h.1, h.2.2.2.1⟩

/-! ## Claim theorem: the adjacent-block search -/

/-- C5: `find_adjacent` returns exactly the first window, in the spec's scan
order (rows 1…80 ascending, group ABC before DEF, windows sliding from the
group's start), whose `n` seats are all free — `findBlock_spec` is that
first-match search written from the spec's words; any returned block lies
inside one row's single side (never spanning the aisle) with every seat
free; on a fresh layout `findBlock(3)` gives `1A,1B,1C`, and after booking
`1A,1B,1C` it gives `1D,1E,1F`. -/
theorem C5_findBlock (seats : SeatMap) (n : Nat) (hn : n = 2 ∨ n = 3) :
    find_adjacent seats n = .ok (findBlock_spec seats n) ∧
    (∀ block, findBlock_spec seats n = some block →
      (∀ s ∈ block, dictGet seats s = some freeVal) ∧
      ∃ row ∈ rowsList, ∃ side ∈ sides, ∃ i,
        block = ((side.drop i).take n).map fun ltr => mkCode row ltr) ∧
    find_adjacent (mkSys []).seats 3 = .ok (some [pys "1A", pys "1B", pys "1C"]) ∧
    dictGet (runOps (mkSys []) C5ops).seats (pys "1A") = some (pys "AAAAAAAA") ∧
    dictGet (runOps (mkSys []) C5ops).seats (pys "1B") = some (pys "BBBBBBBB") ∧
    dictGet (runOps (mkSys []) C5ops).seats (pys "1C") = some (pys "CCCCCCCC") ∧
    find_adjacent (runOps (mkSys []) C5ops).seats 3 =
      .ok (some [pys "1D", pys "1E", pys "1F"]) := by
  refine ⟨find_adjacent_eq_spec seats n hn, ?_, ?_, ?_⟩
  · intro block hblock
    have hmem := List.mem_of_find?_eq_some hblock
    have hpred := List.find?_some hblock
    constructor
    · intro s hs
      have := List.all_eq_true.mp hpred s hs
      simpa using this
    · simp only [specWindows, List.mem_flatMap, List.mem_map] at hmem
      obtain ⟨row, hrow, side, hside, i, _, rfl⟩ := hmem
      exact ⟨row, hrow, side, hside, i, rfl⟩
  · rw [mkSys_nil]
    decide
  · rw [show runOps (mkSys []) C5ops =
      runOps { seats := initTable, durable := [], view := [] } C5ops from by
        rw [mkSys_nil]]
    refine ⟨?_, ?_, ?_, ?_⟩ <;> decide

/-! ## Hydration lemmas -/

theorem load_get_untouched (recs : List DBRecord) : ∀ (m : SeatMap) (code : PyStr),
    (∀ rec ∈ recs, recCode rec ≠ code) →
    dictGet (load_existing_bookings m recs) code = dictGet m code := by
  induction recs with
  | nil => intro m code _; rfl
  | cons r0 recs ih =>
    intro m code hnt
    rw [load_existing_bookings, List.foldl_cons]
    have hne : recCode r0 ≠ code := hnt r0 (List.mem_cons_self r0 recs)
    have htail : ∀ rec ∈ recs, recCode rec ≠ code :=
      fun rec h => hnt rec (List.mem_cons_of_mem r0 h)
    by_cases hget : dictGet m (recCode r0) = some freeVal
    · rw [if_pos hget]
      have := ih (dictSet m (recCode r0) r0.ref) code htail
      rw [load_existing_bookings] at this
      rw [this, dictGet_dictSet_ne m (recCode r0) r0.ref code (fun h => hne h.symm)]
    · rw [if_neg hget]
      have := ih m code htail
      rw [load_existing_bookings] at this
      rw [this]

theorem load_get (recs : List DBRecord) (hnd : (recs.map recCode).Nodup) :
    ∀ (m : SeatMap) (rec : DBRecord), rec ∈ recs →
    dictGet (load_existing_bookings m recs) (recCode rec) =
      if dictGet m (recCode rec) = some freeVal then some rec.ref
      else dictGet m (recCode rec) := by
  induction recs with
  | nil => intro m rec h; cases h
  | cons r0 recs ih =>
    intro m rec hrec
    simp only [List.map_cons, List.nodup_cons] at hnd
    rw [load_existing_bookings, List.foldl_cons]
    rcases List.mem_cons.mp hrec with rfl | hrec2
    · have hnt : ∀ r2 ∈ recs, recCode r2 ≠ recCode rec := by
        intro r2 h2 he
        exact hnd.1 (he ▸ List.mem_map_of_mem recCode h2)
      by_cases hget : dictGet m (recCode rec) = some freeVal
      · rw [if_pos hget, if_pos hget]
        have := load_get_untouched recs (dictSet m (recCode rec) rec.ref) (recCode rec) hnt
        rw [load_existing_bookings] at this
        rw [this, dictGet_dictSet_self]
      · rw [if_neg hget, if_neg hget]
        have := load_get_untouched recs m (recCode rec) hnt
        rw [load_existing_bookings] at this
        rw [this]
    · have hne : recCode rec ≠ recCode r0 :=
        fun he => hnd.1 (he ▸ List.mem_map_of_mem recCode hrec2)
      by_cases hget0 : dictGet m (recCode r0) = some freeVal
      · rw [if_pos hget0]
        have := ih hnd.2 (dictSet m (recCode r0) r0.ref) rec hrec2
        rw [load_existing_bookings] at this
        rw [this, dictGet_dictSet_ne m (recCode r0) r0.ref (recCode rec) hne]
      · rw [if_neg hget0]
        have := ih hnd.2 m rec hrec2
        rw [load_existing_bookings] at this
        rw [this]

theorem keys_load (recs : List DBRecord) : ∀ m : SeatMap,
    (load_existing_bookings m recs).map (·.1) = m.map (·.1) := by
  induction recs with
  | nil => intro m; rfl
  | cons r0 recs ih =>
    intro m
    rw [load_existing_bookings, List.foldl_cons]
    by_cases hget : dictGet m (recCode r0) = some freeVal
    · rw [if_pos hget]
      have := ih (dictSet m (recCode r0) r0.ref)
      rw [load_existing_bookings] at this
      rw [this, keys_dictSet_of_mem]
      exact List.mem_map_of_mem (·.1) (dictGet_mem _ _ _ hget)
    · rw [if_neg hget]
      have := ih m
      rw [load_existing_bookings] at this
      rw [this]

theorem dict_ext : ∀ m1 m2 : SeatMap, m1.map (·.1) = m2.map (·.1) →
    (m1.map (·.1)).Nodup → (∀ k, dictGet m1 k = dictGet m2 k) → m1 = m2 := by
  intro m1
  induction m1 with
  | nil =>
    intro m2 hk _ _
    cases m2 with
    | nil => rfl
    | cons q m2 => simp at hk
  | cons p m1 ih =>
    intro m2 hk hnd hget
    cases m2 with
    | nil => simp at hk
    | cons q m2 =>
      simp only [List.map_cons, List.cons.injEq] at hk
      obtain ⟨hk1, hk2⟩ := hk
      simp only [List.map_cons, List.nodup_cons] at hnd
      have hv : p.2 = q.2 := by
        have h := hget p.1
        rw [dictGet_cons, dictGet_cons, if_pos rfl, if_pos hk1.symm] at h
        exact Option.some.inj h
      have htail : m1 = m2 := by
        refine ih m2 hk2 hnd.2 ?_
        intro k
        by_cases hkp : k = p.1
        · have h1 : dictGet m1 k = none :=
            (dictGet_eq_none_iff m1 k).mpr (by rw [hkp]; exact hnd.1)
          have h2 : dictGet m2 k = none :=
            (dictGet_eq_none_iff m2 k).mpr (by rw [hkp, ← hk2]; exact hnd.1)
          rw [h1, h2]
        · have h := hget k
          rw [dictGet_cons, dictGet_cons, if_neg (fun hh => hkp hh.symm),
            if_neg (fun hh => hkp (hk1 ▸ hh.symm))] at h
          exact h
      cases p with
      | mk pk pv =>
        cases q with
        | mk qk qv =>
          simp only at hk1 hv
          rw [hk1, hv, htail]

theorem load_idempotent (recs : List DBRecord) (hnd : (recs.map recCode).Nodup)
    (m : SeatMap) (hndm : (m.map (·.1)).Nodup) :
    load_existing_bookings (load_existing_bookings m recs) recs =
      load_existing_bookings m recs := by
  refine dict_ext _ _ ?_ ?_ ?_
  · rw [keys_load, keys_load]
  · rw [keys_load, keys_load]; exact hndm
  · intro k
    by_cases hk : ∃ rec ∈ recs, recCode rec = k
    · obtain ⟨rec, hrec, rfl⟩ := hk
      have h1 := load_get recs hnd m rec hrec
      rw [load_get recs hnd (load_existing_bookings m recs) rec hrec]
      by_cases hcm : dictGet m (recCode rec) = some freeVal
      · rw [if_pos hcm] at h1
        by_cases hrf : rec.ref = freeVal
        · rw [if_pos (by rw [h1, hrf]), h1, hrf]
        · rw [if_neg (by rw [h1]; exact fun hh => hrf (Option.some.inj hh))]
      · rw [if_neg hcm] at h1
        rw [if_neg (by rw [h1]; exact hcm)]
    · push_neg at hk
      exact load_get_untouched recs _ k hk

/-! ## Claim theorem: hydration -/

/-- C8: for any set of booking records with pairwise-distinct seat codes
(which the durable primary key `(row, col)` guarantees for schema-conforming
records), hydration sets a seat to the record's reference iff that seat is
`Free` in the freshly initialised inventory, leaves seats of
not-currently-free records (storage seats, out-of-layout coordinates)
unchanged without error, touches no other seat, and is idempotent: hydrating
twice gives the same inventory as hydrating once. -/
theorem C8_hydration (recs : List DBRecord) (hnd : (recs.map recCode).Nodup) :
    (∀ rec ∈ recs, dictGet init_seats (recCode rec) = some freeVal →
      dictGet (load_existing_bookings init_seats recs) (recCode rec) = some rec.ref) ∧
    (∀ rec ∈ recs, dictGet init_seats (recCode rec) ≠ some freeVal →
      dictGet (load_existing_bookings init_seats recs) (recCode rec) =
        dictGet init_seats (recCode rec)) ∧
    (∀ code, (∀ rec ∈ recs, recCode rec ≠ code) →
      dictGet (load_existing_bookings init_seats recs) code =
        dictGet init_seats code) ∧
    load_existing_bookings (load_existing_bookings init_seats recs) recs =
      load_existing_bookings init_seats recs := by
  refine ⟨?_, ?_, ?_, ?_⟩
  · intro rec hrec hfree
    rw [load_get recs hnd init_seats rec hrec, if_pos hfree]
  · intro rec hrec hnfree
    rw [load_get recs hnd init_seats rec hrec, if_neg hnfree]
  · intro code hnt
    exact load_get_untouched recs init_seats code hnt
  · exact load_idempotent recs hnd init_seats (keys_init_seats ▸ allSeats_nodup)

/-- C8 witness: a store with a normal record (1A), a record aimed at a
storage seat (77D), and a record with out-of-layout coordinates (99A). -/
theorem C8_hydration_witness :
    (([DBRecord.mk (pys "AAAAAAAA") (pys "P1") (pys "Ann") (pys "Lee") 1 (pys "A"),
       DBRecord.mk (pys "BBBBBBBB") (pys "P2") (pys "Bob") (pys "Kim") 77 (pys "D"),
       DBRecord.mk (pys "CCCCCCCC") (pys "P3") (pys "Cho") (pys "Day") 99 (pys "A")].map
        recCode).Nodup) ∧
    load_existing_bookings
        (load_existing_bookings init_seats
          [DBRecord.mk (pys "AAAAAAAA") (pys "P1") (pys "Ann") (pys "Lee") 1 (pys "A"),
           DBRecord.mk (pys "BBBBBBBB") (pys "P2") (pys "Bob") (pys "Kim") 77 (pys "D"),
           DBRecord.mk (pys "CCCCCCCC") (pys "P3") (pys "Cho") (pys "Day") 99 (pys "A")])
        [DBRecord.mk (pys "AAAAAAAA") (pys "P1") (pys "Ann") (pys "Lee") 1 (pys "A"),
         DBRecord.mk (pys "BBBBBBBB") (pys "P2") (pys "Bob") (pys "Kim") 77 (pys "D"),
         DBRecord.mk (pys "CCCCCCCC") (pys "P3") (pys "Cho") (pys "Day") 99 (pys "A")] =
      load_existing_bookings init_seats
        [DBRecord.mk (pys "AAAAAAAA") (pys "P1") (pys "Ann") (pys "Lee") 1 (pys "A"),
         DBRecord.mk (pys "BBBBBBBB") (pys "P2") (pys "Bob") (pys "Kim") 77 (pys "D"),
         DBRecord.mk (pys "CCCCCCCC") (pys "P3") (pys "Cho") (pys "Day") 99 (pys "A")] :=
  ⟨by decide,
   (C8_hydration
      [DBRecord.mk (pys "AAAAAAAA") (pys "P1") (pys "Ann") (pys "Lee") 1 (pys "A"),
       DBRecord.mk (pys "BBBBBBBB") (pys "P2") (pys "Bob") (pys "Kim") 77 (pys "D"),
       DBRecord.mk (pys "CCCCCCCC") (pys "P3") (pys "Cho") (pys "Day") 99 (pys "A")]
      (by decide)).2.2.2⟩

/-! ## Claim theorem: reference generation -/

/-- C9: a reference returned by `_new_ref` is exactly 8 characters long,
drawn from A-Z/0-9, differs from every value currently in the seat dict and
from every `ref` in the booking table as the connection sees it; hence a
reference generated after an earlier one has been recorded in the seat map
or the table is never equal to it. -/
theorem C9_new_ref (seats : SeatMap) (view : List DBRecord) (entropy : Nat → Fin 36)
    (fuel k k1 : Nat) (ref : PyStr)
    (h : new_ref seats view entropy fuel k = some (ref, k1)) :
    (ref.length = 8 ∧ ∀ c ∈ ref, c ∈ alphabet) ∧
    ref ∉ dictValues seats ∧ (∀ r ∈ view, r.ref ≠ ref) ∧
    (∀ seats2 view2 entropy2 fuel2 k2 ref2 k3,
      (ref ∈ dictValues seats2 ∨ ∃ r ∈ view2, r.ref = ref) →
      new_ref seats2 view2 entropy2 fuel2 k2 = some (ref2, k3) → ref2 ≠ ref) := by
  obtain ⟨hwr, hnm, hnv⟩ := new_ref_spec seats view entropy fuel k ref k1 h
  refine ⟨hwr, hnm, hnv, ?_⟩
  intro seats2 view2 entropy2 fuel2 k2 ref2 k3 hrec h2 heq
  obtain ⟨_, hnm2, hnv2⟩ := new_ref_spec seats2 view2 entropy2 fuel2 k2 ref2 k3 h2
  subst heq
  rcases hrec with hrec | ⟨r, hr, hre⟩
  · exact hnm2 hrec
  · exact hnv2 r hr hre

/-- C9 witness: with `AAAAAAAA` already recorded for seat 1A, the generator
redraws and the next reference differs from it. -/
theorem C9_new_ref_witness :
    new_ref [(pys "1A", pys "AAAAAAAA")] [] entropyAB 2 0 = some (pys "BBBBBBBB", 2) ∧
    (pys "BBBBBBBB").length = 8 ∧ pys "BBBBBBBB" ≠ pys "AAAAAAAA" := by
  have h : new_ref [(pys "1A", pys "AAAAAAAA")] [] entropyAB 2 0 =
      some (pys "BBBBBBBB", 2) := by decide
  have h9 := C9_new_ref [(pys "1A", pys "AAAAAAAA")] [] entropyAB 2 0 2 (pys "BBBBBBBB") h
  exact ⟨h, h9.1.1, fun he => h9.2.1 (by rw [he]; decide)⟩

/-! ## Claim theorems: seat-code validation -/

/-- C6 counterexample: the raw string `" 77d "` is well-formed (digits then
one letter after strip/upper) and in range (row 77, column D), so the claim
as stated requires `normalise_seat` to return the canonical code `"77D"` —
but the function raises the storage-area `ValueError` instead. -/
theorem C6_counterexample :
    pyUpper (pyStrip (pys " 77d ")) = pys "77" ++ ['D'] ∧
    pyIsDigitStr (pys "77") = true ∧ pyIsAlphaChar 'D' = true ∧
    pyParseNat (pys "77") = 77 ∧ (1 ≤ 77 ∧ 77 ≤ 80) ∧ 'D' ∈ LETTERS ∧
    normalise_seat (mkSys []).seats (pys " 77d ") =
      .error (.valueError (msgStorage (pys "77D"))) ∧
    normalise_seat (mkSys []).seats (pys " 77d ") ≠ .ok (pys "77D") := by
  rw [mkSys_nil]
  decide

theorem init_storage_iff : ∀ r ∈ rowsList, ∀ c ∈ LETTERS,
    (dictGet init_seats (mkCode r c) = some storVal ↔ isStorage r c = true) := by
  intro r hr c hc
  rw [dictGet_init_seats hr hc]
  by_cases h : isStorage r c = true
  · rw [if_pos h]; simp [h]
  · rw [if_neg h]
    constructor
    · intro he; exact absurd (Option.some.inj he) (by decide)
    · intro he; exact absurd he h

/-- C6 amended claim: on a seat map with the layout's keys whose storage
marker characterises exactly the storage coordinates (true of every state
this system constructs), `normalise_seat` strips and upper-cases, fails with
the malformed-code error unless the result is digits followed by one letter,
fails with the out-of-range error unless the row is in 1..80 and the letter
in A-F, fails with the storage-area error on a storage seat, and otherwise
returns the canonical code; it never mutates anything (it is a pure
function of the seat map and the string). -/
theorem C6_normalise_amended (seats : SeatMap) (raw : PyStr)
    (hkeys : seats.map (·.1) = allSeats)
    (hstor : ∀ r ∈ rowsList, ∀ c ∈ LETTERS,
      (dictGet seats (mkCode r c) = some storVal ↔ isStorage r c = true)) :
    ((¬∃ ds c, pyUpper (pyStrip raw) = ds ++ [c] ∧ pyIsDigitStr ds = true ∧
        pyIsAlphaChar c = true) →
      normalise_seat seats raw = .error (.valueError msgBadCode)) ∧
    (∀ ds c, pyUpper (pyStrip raw) = ds ++ [c] → pyIsDigitStr ds = true →
      pyIsAlphaChar c = true →
      (¬((1 ≤ pyParseNat ds ∧ pyParseNat ds ≤ 80) ∧ c ∈ LETTERS) →
        normalise_seat seats raw = .error (.valueError msgRange)) ∧
      ((1 ≤ pyParseNat ds ∧ pyParseNat ds ≤ 80) → c ∈ LETTERS →
        (isStorage (pyParseNat ds) c = true →
          normalise_seat seats raw =
            .error (.valueError (msgStorage (mkCode (pyParseNat ds) c)))) ∧
        (isStorage (pyParseNat ds) c = false →
          normalise_seat seats raw = .ok (mkCode (pyParseNat ds) c)))) := by
  refine ⟨normalise_malformed seats raw, ?_⟩
  intro ds c hsh hds hc
  rw [normalise_shaped seats raw ds c hsh hds hc]
  constructor
  · intro hcond
    have htrue : (!(decide (1 ≤ pyParseNat ds) && decide (pyParseNat ds ≤ 80)) ||
        !(LETTERS.contains c)) = true := by
      rcases Bool.eq_false_or_eq_true
        (!(decide (1 ≤ pyParseNat ds) && decide (pyParseNat ds ≤ 80)) ||
          !(LETTERS.contains c)) with hb | hb
      · exact hb
      · exact absurd ((range_cond_false_iff (pyParseNat ds) c).mp hb) hcond
    rw [normalise_range, if_pos htrue]
  · intro h12 hcL
    have hrow : pyParseNat ds ∈ rowsList := mem_rowsList.mpr h12
    constructor
    · intro hst
      have hget := (hstor (pyParseNat ds) hrow c hcL).mpr hst
      rw [normalise_range, if_neg (by
        rw [(range_cond_false_iff (pyParseNat ds) c).mpr ⟨h12, hcL⟩]
        exact Bool.false_ne_true), hget]
      dsimp only
      rw [if_pos rfl]
    · intro hst
      obtain ⟨v, hget⟩ := get_isSome_of_keys hkeys (mkCode_mem_allSeats hrow hcL)
      have hv : v ≠ storVal := by
        intro he
        rw [he] at hget
        exact absurd ((hstor (pyParseNat ds) hrow c hcL).mp hget) (by simp [hst])
      exact normalise_range_ok_intro seats (pyParseNat ds) c v h12.1 h12.2 hcL hget hv

/-- C6 amended witness: `" 12c "` canonicalises to `12C` on the fresh
inventory. -/
theorem C6_normalise_amended_witness :
    init_seats.map (·.1) = allSeats ∧
    normalise_seat init_seats (pys " 12c ") = .ok (mkCode 12 'C') :=
  ⟨keys_init_seats,
   (((C6_normalise_amended init_seats (pys " 12c ") keys_init_seats
        init_storage_iff).2 (pys "12") 'C' (by decide) (by decide) (by decide)).2
      ⟨by decide, by decide⟩ (by decide)).2 (by decide)⟩

/-! ## Claim theorems: missing rollbacks (code bugs) -/

/-- C1 exhibit: on a fresh system, booking 1A while the durable `INSERT`
raises leaves the in-memory seat map holding the new reference for 1A — it
is not rolled back to `Free` before the failure is reported — while the
durable store holds no record for the seat: the two views diverge after the
call returns. -/
theorem C1_no_rollback :
    (book_seat (mkSys []) (pys "1A") (pys "P1") (pys "Ann") (pys "Lee") entropyA 1
        true false).1 = .error .dbError ∧
    dictGet (book_seat (mkSys []) (pys "1A") (pys "P1") (pys "Ann") (pys "Lee") entropyA 1
        true false).2.seats (pys "1A") = some (pys "AAAAAAAA") ∧
    pys "AAAAAAAA" ≠ freeVal ∧
    (book_seat (mkSys []) (pys "1A") (pys "P1") (pys "Ann") (pys "Lee") entropyA 1
        true false).2.durable = [] := by
  rw [mkSys_nil]
  decide

/-- C2 exhibit: on a fresh system, booking a group of two where the second
durable `INSERT` raises leaves seat 1A reserved in memory and 1B free — the
block is not rolled back — with the first insert still pending in the
connection's transaction (`view`) and nothing durable. -/
theorem C2_partial_group :
    (book_adjacent (mkSys []) [(pys "P1", pys "Ann", pys "Lee"),
        (pys "P2", pys "Bob", pys "Kim")] entropySeq 3 [false, true]).1 =
      .error .dbError ∧
    dictGet (book_adjacent (mkSys []) [(pys "P1", pys "Ann", pys "Lee"),
        (pys "P2", pys "Bob", pys "Kim")] entropySeq 3 [false, true]).2.seats
      (pys "1A") = some (pys "AAAAAAAA") ∧
    dictGet (book_adjacent (mkSys []) [(pys "P1", pys "Ann", pys "Lee"),
        (pys "P2", pys "Bob", pys "Kim")] entropySeq 3 [false, true]).2.seats
      (pys "1B") = some freeVal ∧
    (book_adjacent (mkSys []) [(pys "P1", pys "Ann", pys "Lee"),
        (pys "P2", pys "Bob", pys "Kim")] entropySeq 3 [false, true]).2.durable = [] ∧
    (book_adjacent (mkSys []) [(pys "P1", pys "Ann", pys "Lee"),
        (pys "P2", pys "Bob", pys "Kim")] entropySeq 3 [false, true]).2.view ≠ [] := by
  rw [mkSys_nil]
  decide

/-- C5 witness: the scan-order characterisation instantiated at the fresh
inventory table with `n = 3`. -/
theorem C5_findBlock_witness :
    find_adjacent initTable 3 = .ok (findBlock_spec initTable 3) ∧
    find_adjacent (mkSys []).seats 3 = .ok (some [pys "1A", pys "1B", pys "1C"]) :=
  ⟨(C5_findBlock initTable 3 (Or.inr rfl)).1,
   (C5_findBlock initTable 3 (Or.inr rfl)).2.2.1⟩

end SeatBooking
